import Mathlib

/-!
Shallow embedding of the nobletk/json-parser repository (Go): the lexer
(internal/lexer), token types (internal/token), AST (internal/ast) and the
recursive-descent parser (internal/parser), together with theorems settling
the frozen claims about the specification.

Go strings are byte arrays; the input and all literals are modelled as
`List Nat` of byte values.  Machine integers of the source (line, column,
positions) never overflow on the inputs considered and are modelled as `Nat`.
Loops of the source are modelled with an explicit fuel argument; every
wrapper supplies fuel that provably cannot run out on the states the
theorems speak about, and fuel exhaustion returns a sentinel that no real
execution produces.
-/

set_option exponentiation.threshold 1300

namespace GoJson

/-- Position from internal/token/token.go: 1-based line, column counted since
the last newline. -/
structure Position where
  line : Nat
  column : Nat
deriving DecidableEq, Repr

/-- TokenType from internal/token/token.go is a Go string; modelled as `String`. -/
abbrev TokenType := String

def ILLEGAL : TokenType := "ILLEGAL"
def EOF : TokenType := "EOF"
def STRING : TokenType := "STRING"
def NUMBER : TokenType := "NUMBER"
def TRUE : TokenType := "TRUE"
def FALSE : TokenType := "FALSE"
def NULL : TokenType := "NULL"
def COMMA : TokenType := ","
def COLON : TokenType := ":"
def LBRACE : TokenType := "\x7b"
def RBRACE : TokenType := "\x7d"
def LBRACKET : TokenType := "["
def RBRACKET : TokenType := "]"

/-- Token from internal/token/token.go; Literal is a raw byte span. -/
structure Token where
  type : TokenType
  literal : List Nat
  pos : Position
deriving DecidableEq, Repr

/-- ASCII bytes of a Lean string (all inputs considered are ASCII, where this
agrees with Go's byte view of the string). -/
def strToBytes (s : String) : List Nat := s.toList.map Char.toNat

/-- Byte list rendered back as text, used where the Go source interpolates a
string into an error message. -/
def bytesToString (bs : List Nat) : String := String.mk (bs.map Char.ofNat)

/-- LookupIdent from internal/token/token.go: the keywords map. -/
def LookupIdent (ident : List Nat) : TokenType :=
  if ident = strToBytes "true" then TRUE
  else if ident = strToBytes "false" then FALSE
  else if ident = strToBytes "null" then NULL
  else ILLEGAL

/-- Lexer state from internal/lexer/lexer.go (the slog.Logger field is pure
tracing and is omitted). -/
structure Lexer where
  input : List Nat
  position : Nat
  readPosition : Nat
  ch : Nat
  line : Nat
  column : Nat
deriving DecidableEq, Repr

/-- readChar from internal/lexer/lexer.go. -/
def readChar (l : Lexer) : Lexer :=
  let c := if l.readPosition ≥ l.input.length then 0 else l.input.getD l.readPosition 0
  { input := l.input
    position := l.readPosition
    readPosition := l.readPosition + 1
    ch := c
    line := if c = 10 then l.line + 1 else l.line
    column := if c = 10 then 0 else l.column + 1 }

/-- peekChar from internal/lexer/lexer.go. -/
def peekChar (l : Lexer) : Nat :=
  if l.readPosition ≥ l.input.length then 0 else l.input.getD l.readPosition 0

/-- New from internal/lexer/lexer.go: line starts at 1, column at 0, then one
readChar. -/
def lexerNew (input : List Nat) : Lexer :=
  readChar { input := input, position := 0, readPosition := 0, ch := 0, line := 1, column := 0 }

def isLetter (c : Nat) : Bool := (97 ≤ c ∧ c ≤ 122) ∨ (65 ≤ c ∧ c ≤ 90) ∨ c = 95

def isDigit (c : Nat) : Bool := 48 ≤ c ∧ c ≤ 57

/-- Go slice `input[a:b]`. -/
def slice (l : List Nat) (a b : Nat) : List Nat := (l.drop a).take (b - a)

/-- skipWhitespace from internal/lexer/lexer.go (space, tab, newline, carriage
return), with fuel; each iteration consumes one character. -/
def skipWhitespace : Nat → Lexer → Lexer
  | 0, l => l
  | fuel + 1, l =>
    if l.ch = 32 ∨ l.ch = 9 ∨ l.ch = 10 ∨ l.ch = 13 then skipWhitespace fuel (readChar l)
    else l

/-- readIdentifier's loop from internal/lexer/lexer.go: readChar while the
current character is a letter. -/
def readIdentifierLoop : Nat → Lexer → Lexer
  | 0, l => l
  | fuel + 1, l => if isLetter l.ch then readIdentifierLoop fuel (readChar l) else l

/-- readIdentifier from internal/lexer/lexer.go. -/
def readIdentifier (l : Lexer) : List Nat × Lexer :=
  let pos := l.position
  let l' := readIdentifierLoop (l.input.length + 2) l
  (slice l'.input pos l'.position, l')

/-- The backslash-counting loop of readString: `for i := position-1; i >= 0 &&
input[i] == 92; i--`, counting consecutive backslashes downward from index i. -/
def countBackslashes (input : List Nat) : Nat → Nat
  | 0 => if input.getD 0 0 = 92 then 1 else 0
  | i + 1 => if input.getD (i + 1) 0 = 92 then countBackslashes input i + 1 else 0

/-- The ReadLoop of readString from internal/lexer/lexer.go: readChar, then a
quote preceded by an even number of consecutive backslashes ends the string;
any byte 0-31 (including the 0 at end of input) returns ILLEGAL with the text
collected so far. -/
def readStringLoop (start : Nat) (startPos : Position) : Nat → Lexer → Token × Lexer
  | 0, l => (⟨ILLEGAL, [], startPos⟩, l)
  | fuel + 1, l =>
    if (readChar l).ch = 34 then
      if countBackslashes (readChar l).input ((readChar l).position - 1) % 2 = 0 then
        (⟨STRING, slice (readChar l).input start (readChar l).position, startPos⟩, readChar l)
      else readStringLoop start startPos fuel (readChar l)
    else if (readChar l).ch ≤ 31 then
      (⟨ILLEGAL, slice (readChar l).input start (readChar l).position, startPos⟩, readChar l)
    else readStringLoop start startPos fuel (readChar l)

/-- readString from internal/lexer/lexer.go. -/
def readString (l : Lexer) : Token × Lexer :=
  readStringLoop (l.position + 1) ⟨l.line, l.column⟩ (l.input.length + 2) l

/-- The character set greedily consumed by readNumber: digits and `.`, `-`,
`+`, `e`, `E`. -/
def inNumCharset (c : Nat) : Bool :=
  isDigit c ∨ c = 46 ∨ c = 45 ∨ c = 43 ∨ c = 101 ∨ c = 69

def digitsSpan (s : List Nat) : List Nat × List Nat := (s.takeWhile isDigit, s.dropWhile isDigit)

/-- The integer part `(([1-9][0-9]*)|0)` of the number regex in readNumber:
a lone `0`, or a nonzero digit followed by any digits. -/
def matchIntPart : List Nat → Option (List Nat)
  | [] => none
  | c :: rest =>
    if c = 48 then some rest
    else if 49 ≤ c ∧ c ≤ 57 then some (rest.dropWhile isDigit)
    else none

/-- The fraction part `(\.[0-9]+)?` of the number regex. -/
def matchFracPart : List Nat → Option (List Nat)
  | 46 :: rest =>
    let (ds, r) := digitsSpan rest
    if ds.isEmpty then none else some r
  | s => some s

/-- The optional leading minus `[-]?` of the number regex. -/
def minusStrip : List Nat → List Nat
  | 45 :: r => r
  | s => s

/-- The optional leading sign `[+-]?` (with its negativity) shared by the
regex's exponent part and by strconv.ParseFloat's mantissa and exponent
readers. -/
def signSplit : List Nat → Bool × List Nat
  | 45 :: r => (true, r)
  | 43 :: r => (false, r)
  | s => (false, s)

/-- The exponent part `([eE][-+]?[0-9]+)?` of the number regex. -/
def matchExpPart : List Nat → Option (List Nat)
  | [] => some []
  | c :: rest =>
    if c = 101 ∨ c = 69 then
      if (digitsSpan (signSplit rest).2).1.isEmpty then none
      else some (digitsSpan (signSplit rest).2).2
    else some (c :: rest)

/-- The anchored regex `^[-]?(([1-9][0-9]*)|0)(\.[0-9]+)?([eE][-+]?[0-9]+)?$`
that readNumber (internal/lexer/lexer.go) validates the greedily consumed span
against, as an executable matcher. -/
def numberGrammar (s : List Nat) : Bool :=
  match matchIntPart (minusStrip s) with
  | none => false
  | some s2 =>
    match matchFracPart s2 with
    | none => false
    | some s3 =>
      match matchExpPart s3 with
      | none => false
      | some s4 => s4.isEmpty

/-- readNumber's loop from internal/lexer/lexer.go: readChar while the peeked
character is in the number character set; once the run ends, slice out the
span, advance once, and classify by the regex. -/
def readNumberLoop (start : Nat) (startPos : Position) : Nat → Lexer → Token × Lexer
  | 0, l => (⟨ILLEGAL, [], startPos⟩, l)
  | fuel + 1, l =>
    if inNumCharset (peekChar l) then readNumberLoop start startPos fuel (readChar l)
    else
      let numberStr := slice l.input start (l.position + 1)
      let l' := readChar l
      if numberGrammar numberStr then (⟨NUMBER, numberStr, startPos⟩, l')
      else (⟨ILLEGAL, numberStr, startPos⟩, l')

/-- readNumber from internal/lexer/lexer.go. -/
def readNumber (l : Lexer) : Token × Lexer :=
  readNumberLoop l.position ⟨l.line, l.column⟩ (l.input.length + 2) l

/-- newToken from internal/lexer/lexer.go. -/
def newToken (t : TokenType) (c : Nat) (pos : Position) : Token := ⟨t, [c], pos⟩

/-- NextToken from internal/lexer/lexer.go.  Note that every branch except the
identifier and number branches performs a trailing readChar, including the EOF
branch. -/
def NextToken (l₀ : Lexer) : Token × Lexer :=
  let l := skipWhitespace (l₀.input.length + 2) l₀
  let pos : Position := ⟨l.line, l.column⟩
  if l.ch = 123 then (newToken LBRACE l.ch pos, readChar l)
  else if l.ch = 125 then (newToken RBRACE l.ch pos, readChar l)
  else if l.ch = 91 then (newToken LBRACKET l.ch pos, readChar l)
  else if l.ch = 93 then (newToken RBRACKET l.ch pos, readChar l)
  else if l.ch = 44 then (newToken COMMA l.ch pos, readChar l)
  else if l.ch = 58 then (newToken COLON l.ch pos, readChar l)
  else if l.ch = 34 then
    let (tok, l') := readString l
    (tok, readChar l')
  else if l.ch = 0 then (⟨EOF, [], pos⟩, readChar l)
  else if isLetter l.ch then
    let (lit, l') := readIdentifier l
    (⟨LookupIdent lit, lit, pos⟩, l')
  else if l.ch = 45 ∨ isDigit l.ch then
    readNumber l
  else (newToken ILLEGAL l.ch pos, readChar l)

/-! ## AST (internal/ast/ast.go) -/

/-- The exact value of a validated number literal, mant * 10 ^ exp.  Go
stores a float64 (the value strconv.ParseFloat returns); the rounding of
this exact decimal to the nearest float64 is not modelled, and no claim
depends on the rounded bits. -/
structure DecValue where
  mant : ℤ
  exp : ℤ
deriving DecidableEq, Repr

/-- The rational the decimal value denotes. -/
def DecValue.toRat (d : DecValue) : ℚ := (d.mant : ℚ) * (10 : ℚ) ^ d.exp

/-- Element from internal/ast/ast.go: the closed set of node variants.  Go's
`Object.Pairs` is a `map[Element]Element` keyed by freshly allocated nodes
(never overwritten, since the parser rejects duplicate renderings first); it
is modelled as the list of pairs in insertion order.  Number values carry the
exact decimal value of the literal. -/
inductive Element where
  | object (tok : Token) (pairs : List (Element × Element))
  | array (tok : Token) (elems : List Element)
  | strLit (tok : Token) (value : List Nat)
  | boolean (tok : Token) (value : Bool)
  | null (tok : Token) (value : List Nat)
  | number (tok : Token) (value : DecValue)
deriving Repr

/-- strings.Join with separator ", " as used by the String() methods. -/
def joinComma : List String → String
  | [] => ""
  | [s] => s
  | s :: rest => s ++ ", " ++ joinComma rest

mutual

/-- The String() methods of internal/ast/ast.go: source-like re-rendering.
Object renders its pairs in insertion order (Go iterates its map in
unspecified order; the parser only ever renders string keys, single nodes,
where the order cannot be observed). -/
def Element.render : Element → String
  | .object _ pairs => "\x7b" ++ joinComma (renderPairs pairs) ++ "\x7d"
  | .array _ elems => "[" ++ joinComma (renderList elems) ++ "]"
  | .strLit _ v => "\"" ++ bytesToString v ++ "\""
  | .boolean tok _ => bytesToString tok.literal
  | .null tok _ => bytesToString tok.literal
  | .number tok _ => bytesToString tok.literal

def renderPairs : List (Element × Element) → List String
  | [] => []
  | (k, v) :: rest => (k.render ++ ":" ++ v.render) :: renderPairs rest

def renderList : List Element → List String
  | [] => []
  | e :: rest => e.render :: renderList rest

end

/-- The generic values produced by the ToInterface() methods: Go's
`interface{}` tree of maps, slices and primitives.  The map keeps insertion
order (Go map iteration order is unspecified). -/
inductive GoValue where
  | map (entries : List (String × GoValue))
  | arr (elems : List GoValue)
  | str (s : String)
  | num (q : DecValue)
  | boolean (b : Bool)
  | null
deriving Repr

mutual

/-- The ToInterface() methods of internal/ast/ast.go.  Object skips pairs
whose key is not a StringLiteral. -/
def Element.toInterface : Element → GoValue
  | .object _ pairs => .map (pairsToInterface pairs)
  | .array _ elems => .arr (listToInterface elems)
  | .strLit _ v => .str (bytesToString v)
  | .boolean _ b => .boolean b
  | .null _ _ => .null
  | .number _ q => .num q

def pairsToInterface : List (Element × Element) → List (String × GoValue)
  | [] => []
  | (k, v) :: rest =>
    match k with
    | .strLit _ kb => (bytesToString kb, v.toInterface) :: pairsToInterface rest
    | _ => pairsToInterface rest

def listToInterface : List Element → List GoValue
  | [] => []
  | e :: rest => e.toInterface :: listToInterface rest

end

/-- JSONFile from internal/ast/ast.go. -/
structure JSONFile where
  Elements : List Element
deriving Repr

/-- JSONFile.ToInterface from internal/ast/ast.go: `jf.Elements[0].ToInterface()`.
`none` models the Go runtime panic (index out of range) on an empty list. -/
def JSONFile.toInterface (jf : JSONFile) : Option GoValue :=
  match jf.Elements with
  | [] => none
  | e :: _ => some e.toInterface

/-! ## Parser (internal/parser/parser.go) -/

/-- JSONErr from internal/parser/parser.go. -/
structure JSONErr where
  msg : String
  pos : Position
deriving DecidableEq, Repr

/-- Parser state from internal/parser/parser.go: the lexer plus the sliding
previous/current/peek token window.  The parseFnMap built by New registers
handlers for exactly STRING, TRUE, FALSE, NULL, NUMBER, LBRACKET and LBRACE;
the lookup is modelled by the dispatch in parseValue. -/
structure Parser where
  lexer : Lexer
  prvToken : Token
  curToken : Token
  peekToken : Token
deriving Repr

/-- nextToken from internal/parser/parser.go. -/
def pNextToken (p : Parser) : Parser :=
  let (tok, lx) := NextToken p.lexer
  { lexer := lx, prvToken := p.curToken, curToken := p.peekToken, peekToken := tok }

/-- New from internal/parser/parser.go: zero-valued token window, then two
nextToken calls. -/
def parserNew (l : Lexer) : Parser :=
  pNextToken (pNextToken { lexer := l, prvToken := ⟨"", [], ⟨0, 0⟩⟩,
                           curToken := ⟨"", [], ⟨0, 0⟩⟩, peekToken := ⟨"", [], ⟨0, 0⟩⟩ })

def pCurTokenIs (p : Parser) (t : TokenType) : Bool := p.curToken.type = t

def pPeekTokenIs (p : Parser) (t : TokenType) : Bool := p.peekToken.type = t

/-- peekError from internal/parser/parser.go. -/
def peekError (p : Parser) (t : TokenType) : JSONErr :=
  ⟨"Expected '" ++ t ++ "', got '" ++ p.peekToken.type ++ "' instead\n", p.peekToken.pos⟩

/-- expectPeek from internal/parser/parser.go: on success the parser advances,
on failure it is unchanged and peekError is returned. -/
def expectPeek (p : Parser) (t : TokenType) : Except JSONErr Parser :=
  if pPeekTokenIs p t then .ok (pNextToken p) else .error (peekError p t)

/-- noParseFnError from internal/parser/parser.go: the message depends on the
previous token's type. -/
def noParseFnError (p : Parser) (t : Token) : JSONErr :=
  if p.prvToken.type = COLON then
    ⟨"Expected 'STRING', 'NUMBER', 'NULL', 'TRUE', 'FALSE', '\x7b', '[', got '" ++ t.type ++
      "' instead\n", p.curToken.pos⟩
  else if p.prvToken.type = LBRACKET then
    ⟨"Expected 'STRING', 'NUMBER', 'NULL', 'TRUE', 'FALSE', '\x7b', '[', ']', got '" ++ t.type ++
      "' instead\n", p.curToken.pos⟩
  else if p.prvToken.type = COMMA then
    ⟨"Expected 'STRING', 'NUMBER', 'NULL', 'TRUE', 'FALSE', '\x7b', '[', got '" ++ t.type ++
      "' instead\n", p.curToken.pos⟩
  else
    ⟨"Unexpected token found '" ++ t.type ++ "'\n", p.curToken.pos⟩

/-- isDuplicateProperty from internal/parser/parser.go: a key is a duplicate
iff its rendering equals the rendering of a stored key. -/
def isDuplicateProperty (pairs : List (Element × Element)) (prop : Element) : Bool :=
  pairs.any fun kv => prop.render = kv.1.render

def isHexDigit (c : Nat) : Bool :=
  (97 ≤ c ∧ c ≤ 102) ∨ (65 ≤ c ∧ c ≤ 70) ∨ (48 ≤ c ∧ c ≤ 57)

/-- isValidHexSequence from internal/parser/parser.go. -/
def isValidHexSequence (seq : List Nat) : Bool :=
  seq.length = 4 ∧ seq.all isHexDigit

/-- checkEscapedSequence from internal/parser/parser.go: `str` starts at a
backslash and the caller guarantees a following byte exists; returns the
length of the escape, or an error positioned at the current token. -/
def checkEscapedSequence (tokPos : Position) (str : List Nat) : Nat × Option JSONErr :=
  let c := str.getD 1 0
  if c = 34 ∨ c = 92 ∨ c = 47 ∨ c = 98 ∨ c = 102 ∨ c = 110 ∨ c = 114 ∨ c = 116 then
    (2, none)
  else if c = 117 then
    if str.length ≥ 6 ∧ isValidHexSequence ((str.drop 2).take 4) then (6, none)
    else (0, some ⟨"Invalid unicode escape sequence\n", tokPos⟩)
  else (0, some ⟨"Invalid escape sequence\n", tokPos⟩)

/-- parseString's scanning loop from internal/parser/parser.go, over the index
i into the literal; fuel decreases once per iteration (the index advances by
at least one each time, so `length + 1` fuel always suffices). -/
def parseStringLoop (tokPos : Position) (str : List Nat) : Nat → Nat → Option JSONErr
  | 0, _ => some ⟨"OUT OF FUEL", ⟨0, 0⟩⟩
  | fuel + 1, i =>
    if i < str.length then
      if str.getD i 0 = 92 ∧ i + 1 < str.length then
        if (checkEscapedSequence tokPos (str.drop i)).1 > 0 ∧
            (checkEscapedSequence tokPos (str.drop i)).2 = none then
          parseStringLoop tokPos str fuel (i + (checkEscapedSequence tokPos (str.drop i)).1)
        else (checkEscapedSequence tokPos (str.drop i)).2
      else parseStringLoop tokPos str fuel (i + 1)
    else none

/-- parseString from internal/parser/parser.go: validate the escapes, then
store the raw (undecoded) literal. -/
def parseString (p : Parser) : Except JSONErr (Element × Parser) :=
  let str := p.curToken.literal
  match parseStringLoop p.curToken.pos str (str.length + 1) 0 with
  | some e => .error e
  | none => .ok (.strLit p.curToken p.curToken.literal, p)

/-- parseBoolean from internal/parser/parser.go. -/
def parseBoolean (p : Parser) : Except JSONErr (Element × Parser) :=
  .ok (.boolean p.curToken (pCurTokenIs p TRUE), p)

/-- parseNull from internal/parser/parser.go. -/
def parseNull (p : Parser) : Except JSONErr (Element × Parser) :=
  .ok (.null p.curToken p.curToken.literal, p)

/-- The optional fraction `.digits`: the digits and the remainder (empty
digits when no `.` leads). -/
def fracSplit : List Nat → List Nat × List Nat
  | 46 :: r => digitsSpan r
  | s => ([], s)

/-- The exponent tail: empty input means no exponent; `e`/`E`, an optional
sign and a nonempty digit run consuming the whole remainder yields the sign
and digits; anything else is a syntax error. -/
def expSplit : List Nat → Option (Bool × List Nat)
  | [] => some (false, [])
  | c :: r =>
    if c = 101 ∨ c = 69 then
      if (digitsSpan (signSplit r).2).1.isEmpty ∨ ¬ (digitsSpan (signSplit r).2).2.isEmpty then
        none
      else some ((signSplit r).1, (digitsSpan (signSplit r).2).1)
    else none

/-- Modelled from the behaviour of Go's strconv.ParseFloat (the only
standard-library call of the parser, parseNumber): the decimal decomposition
sign / integer digits / fraction digits / exponent sign / exponent digits
that ParseFloat's number reader accepts.  Hexadecimal floats, Inf/NaN
spellings and underscore separators cannot reach parseNumber (the tokenizer's
number grammar is stricter) and are not modelled. -/
def goFloatSyntax (s : List Nat) : Option (Bool × List Nat × List Nat × Bool × List Nat) :=
  let p0 := signSplit s
  let p1 := digitsSpan p0.2
  let p2 := fracSplit p1.2
  if p1.1.isEmpty ∧ p2.1.isEmpty then none
  else
    match expSplit p2.2 with
    | none => none
    | some (esgn, eds) => some (p0.1, p1.1, p2.1, esgn, eds)

def digitsToNat (ds : List Nat) : Nat := ds.foldl (fun a c => a * 10 + (c - 48)) 0

/-- The float64 overflow condition, m * 10 ^ e ≥ (2^54 - 1) * 2^970, over the
magnitude m.  The right-hand side is the smallest magnitude that rounds to
infinity under round-to-nearest-even; strconv.ParseFloat returns ErrRange at
or above it. -/
def decimalOverflow (m : ℕ) (e : ℤ) : Bool :=
  if 0 ≤ e then (2 ^ 54 - 1) * 2 ^ 970 ≤ m * 10 ^ e.toNat
  else (2 ^ 54 - 1) * 2 ^ 970 * 10 ^ (-e).toNat ≤ m

/-- The float64 underflow condition, 0 < m and m * 10 ^ e ≤ 2^(-1075): such a
nonzero magnitude rounds to zero and strconv.ParseFloat reports ErrRange. -/
def decimalUnderflow (m : ℕ) (e : ℤ) : Bool :=
  0 < m ∧ (if 0 ≤ e then m * 10 ^ e.toNat * 2 ^ 1075 ≤ 1 else m * 2 ^ 1075 ≤ 10 ^ (-e).toNat)

/-- Modelled from the behaviour of Go's strconv.ParseFloat on 64 bits: `none`
when the text is not a number or the value is out of range (ErrRange, in
which case parseNumber's err != nil branch runs); otherwise the exact decimal
value of the literal. -/
def goParseFloat (s : List Nat) : Option DecValue :=
  match goFloatSyntax s with
  | none => none
  | some (neg, ip, fp, esgn, eds) =>
    let mant : ℕ := digitsToNat (ip ++ fp)
    let e10 : ℤ := (if esgn then -(digitsToNat eds : ℤ) else (digitsToNat eds : ℤ)) - fp.length
    if decimalOverflow mant e10 then none
    else if decimalUnderflow mant e10 then none
    else some ⟨if neg then -(mant : ℤ) else (mant : ℤ), e10⟩

/-- parseNumber from internal/parser/parser.go; strconv.ParseFloat is the
modelled goParseFloat, and fmt's %q on a number literal (whose bytes are
drawn from digits and `.` `-` `+` `e` `E`) is plain double-quoting. -/
def parseNumber (p : Parser) : Except JSONErr (Element × Parser) :=
  match goParseFloat p.curToken.literal with
  | some v => .ok (.number p.curToken v, p)
  | none =>
    .error ⟨"Failed parsing \"" ++ bytesToString p.curToken.literal ++ "\" as a float\n",
      p.curToken.pos⟩

/-- The sentinel returned on fuel exhaustion; no execution of the Go source
corresponds to it, and every theorem supplies fuel that cannot run out. -/
def fuelErr : JSONErr := ⟨"OUT OF FUEL", ⟨0, 0⟩⟩

mutual

/-- parseValue from internal/parser/parser.go: the parseFnMap lookup (New
registers handlers for exactly these seven kinds) and dispatch. -/
def parseValue : Nat → Parser → Except JSONErr (Element × Parser)
  | 0, _ => .error fuelErr
  | fuel + 1, p =>
    if p.curToken.type = STRING then parseString p
    else if p.curToken.type = TRUE then parseBoolean p
    else if p.curToken.type = FALSE then parseBoolean p
    else if p.curToken.type = NULL then parseNull p
    else if p.curToken.type = NUMBER then parseNumber p
    else if p.curToken.type = LBRACKET then parseArray fuel p
    else if p.curToken.type = LBRACE then parseObject fuel p
    else .error (noParseFnError p p.curToken)

/-- parseObject from internal/parser/parser.go. -/
def parseObject : Nat → Parser → Except JSONErr (Element × Parser)
  | 0, _ => .error fuelErr
  | fuel + 1, p =>
    let tok := p.curToken
    if ¬ pPeekTokenIs p STRING ∧ ¬ pPeekTokenIs p RBRACE then
      .error ⟨"Expected 'STRING', '\x7d', got '" ++ p.peekToken.type ++ "' instead\n",
        p.peekToken.pos⟩
    else
      match parseObjectLoop fuel [] p with
      | .error e => .error e
      | .ok (pairs, p') =>
        match expectPeek p' RBRACE with
        | .error e => .error e
        | .ok p'' => .ok (.object tok pairs, p'')

/-- The `for !p.peekTokenIs(RBRACE)` loop of parseObject.  The duplicate check
runs after expectPeek(COLON) has advanced, so its error carries the COLON
token's position; Go's separator line
`if err := p.expectPeek(COMMA); !p.peekTokenIs(RBRACE) && err != nil` first
attempts to consume a comma and only then tests the peek token. -/
def parseObjectLoop : Nat → List (Element × Element) → Parser → Except JSONErr (List (Element × Element) × Parser)
  | 0, _, _ => .error fuelErr
  | fuel + 1, pairs, p₀ =>
    if pPeekTokenIs p₀ RBRACE then .ok (pairs, p₀)
    else
      let p := pNextToken p₀
      match parseValue fuel p with
      | .error e => .error e
      | .ok (prop, p1) =>
        match expectPeek p1 COLON with
        | .error e => .error e
        | .ok p2 =>
          if isDuplicateProperty pairs prop then
            .error ⟨"Duplicate JSON property '" ++ prop.render ++ "'\n", p2.curToken.pos⟩
          else
            match parseValue fuel (pNextToken p2) with
            | .error e => .error e
            | .ok (val, p3) =>
              match expectPeek p3 COMMA with
              | .ok p4 => parseObjectTail fuel (pairs ++ [(prop, val)]) p4
              | .error e =>
                if ¬ pPeekTokenIs p3 RBRACE then .error e
                else parseObjectTail fuel (pairs ++ [(prop, val)]) p3

/-- The tail of parseObject's loop body: the check that rejects a comma not
followed by a STRING key, then the next iteration. -/
def parseObjectTail : Nat → List (Element × Element) → Parser → Except JSONErr (List (Element × Element) × Parser)
  | 0, _, _ => .error fuelErr
  | fuel + 1, pairs, p =>
    if pCurTokenIs p COMMA ∧ ¬ pPeekTokenIs p STRING then
      .error ⟨"Expected 'STRING', got '" ++ p.peekToken.type ++ "' instead\n", p.peekToken.pos⟩
    else parseObjectLoop fuel pairs p

/-- parseArray from internal/parser/parser.go. -/
def parseArray : Nat → Parser → Except JSONErr (Element × Parser)
  | 0, _ => .error fuelErr
  | fuel + 1, p =>
    let tok := p.curToken
    match parseArrayList fuel RBRACKET p with
    | .error e => .error e
    | .ok (list, p') => .ok (.array tok list, p')

/-- parseArrayList from internal/parser/parser.go. -/
def parseArrayList : Nat → TokenType → Parser → Except JSONErr (List Element × Parser)
  | 0, _, _ => .error fuelErr
  | fuel + 1, endT, p =>
    if pPeekTokenIs p endT then .ok ([], pNextToken p)
    else
      match consumeAndParseValue fuel [] p with
      | .error e => .error e
      | .ok (list, p') => parseArrayListLoop fuel endT list p'

/-- The `for p.peekTokenIs(COMMA)` loop of parseArrayList, then its final
end-token check and advance. -/
def parseArrayListLoop : Nat → TokenType → List Element → Parser → Except JSONErr (List Element × Parser)
  | 0, _, _, _ => .error fuelErr
  | fuel + 1, endT, list, p =>
    if pPeekTokenIs p COMMA then
      let p1 := pNextToken p
      if pPeekTokenIs p1 endT then
        .error ⟨"Expected 'STRING', 'NUMBER', 'TRUE', 'FALSE', 'NULL'. got '" ++
          p1.peekToken.type ++ "' instead\n", p1.peekToken.pos⟩
      else
        match consumeAndParseValue fuel list p1 with
        | .error e => .error e
        | .ok (list', p2) => parseArrayListLoop fuel endT list' p2
    else
      if ¬ pPeekTokenIs p endT ∧ ¬ pCurTokenIs p COMMA then
        .error ⟨"Expected ',', ']'. got '" ++ p.peekToken.type ++ "' instead\n", p.peekToken.pos⟩
      else .ok (list, pNextToken p)

/-- consumeAndParseValue from internal/parser/parser.go. -/
def consumeAndParseValue : Nat → List Element → Parser → Except JSONErr (List Element × Parser)
  | 0, _, _ => .error fuelErr
  | fuel + 1, list, p₀ =>
    let p := pNextToken p₀
    match parseValue fuel p with
    | .error e => .error e
    | .ok (val, p') => .ok (list ++ [val], p')

end

/-- parseElement from internal/parser/parser.go: only objects and arrays at
the top level; the default branch reports the PEEK token's position. -/
def parseElement (fuel : Nat) (p : Parser) : Except JSONErr (Element × Parser) :=
  if p.curToken.type = LBRACE then parseObject fuel p
  else if p.curToken.type = LBRACKET then parseArray fuel p
  else .error ⟨"Expected 'EOF', got '" ++ p.curToken.type ++ "' instead\n", p.peekToken.pos⟩

/-- The `for !p.curTokenIs(EOF)` loop of ParseFile: parse one top-level
element, append it, advance. -/
def parseFileLoop : Nat → List Element → Parser → Except JSONErr JSONFile
  | 0, _, _ => .error fuelErr
  | fuel + 1, elems, p =>
    if pCurTokenIs p EOF then .ok ⟨elems⟩
    else
      match parseElement fuel p with
      | .error e => .error e
      | .ok (elem, p') => parseFileLoop fuel (elems ++ [elem]) (pNextToken p')

/-- ParseFile from internal/parser/parser.go. -/
def ParseFile (fuel : Nat) (p : Parser) : Except JSONErr JSONFile :=
  if ¬ pCurTokenIs p LBRACE ∧ ¬ pCurTokenIs p LBRACKET then
    .error ⟨"Expected '\x7b' or '[', got '" ++ p.curToken.type ++ "' instead\n", p.curToken.pos⟩
  else parseFileLoop fuel [] p

/-- The whole pipeline on a text input, with fuel amply proportional to the
input size (fuel decreases at most once per consumed token or nesting level). -/
def parseInput (s : String) : Except JSONErr JSONFile :=
  let bs := strToBytes s
  ParseFile (2 * bs.length + 8) (parserNew (lexerNew bs))

/-! ## Specification-side definitions, written from the claims' words, to be
compared with the code-side functions above. -/

/-- The number of consecutive backslashes at the end of a byte span. -/
def trailingBackslashRun (s : List Nat) : Nat :=
  (s.reverse.takeWhile fun c => c == 92).length

/-- Spec C5: index i of the scanned span is an unescaped closing quote — a
quote whose run of immediately preceding consecutive backslashes is even
(including zero). -/
def strTerm (s : List Nat) (i : Nat) : Bool :=
  s.getD i 0 = 34 ∧ trailingBackslashRun (s.take i) % 2 = 0

/-- Spec C5: index i of the scanned span holds a raw control byte 0-31 (an
index at or past the end reads the 0 byte that signals end of input). -/
def strCtrl (s : List Nat) (i : Nat) : Bool := s.getD i 0 ≤ 31

/-- Spec C5: string scanning stops at index i. -/
def strStop (s : List Nat) (i : Nat) : Bool := strTerm s i ∨ strCtrl s i

/-- Spec C6: the eight single-character escapes of the claim. -/
def isSimpleEscape (c : Nat) : Bool :=
  c = 34 ∨ c = 92 ∨ c = 47 ∨ c = 98 ∨ c = 102 ∨ c = 110 ∨ c = 114 ∨ c = 116

/-- Spec C6, from the claim's words: every backslash-introduced escape in the
literal is one of the eight single-character escapes or a `u` followed by
exactly 4 hex digits (a backslash that introduces anything else, including
one that ends the literal, is invalid). -/
def specEscapesValid : List Nat → Bool
  | [] => true
  | a :: rest =>
    if a = 92 then
      match rest with
      | [] => false
      | c :: rest' =>
        if isSimpleEscape c then specEscapesValid rest'
        else if c = 117 then
          (match rest' with
           | h1 :: h2 :: h3 :: h4 :: rest4 =>
             if isHexDigit h1 ∧ isHexDigit h2 ∧ isHexDigit h3 ∧ isHexDigit h4 then
               specEscapesValid rest4
             else false
           | _ => false)
        else false
    else specEscapesValid rest

/-- Spec C6: whether the first invalid escape of the literal is a malformed
`u` escape (so the claim expects the unicode message rather than the plain
escape message). -/
def firstBadEscapeIsUnicode : List Nat → Bool
  | [] => false
  | a :: rest =>
    if a = 92 then
      match rest with
      | [] => false
      | c :: rest' =>
        if isSimpleEscape c then firstBadEscapeIsUnicode rest'
        else if c = 117 then
          (match rest' with
           | h1 :: h2 :: h3 :: h4 :: rest4 =>
             if isHexDigit h1 ∧ isHexDigit h2 ∧ isHexDigit h3 ∧ isHexDigit h4 then
               firstBadEscapeIsUnicode rest4
             else true
           | _ => true)
        else false
    else firstBadEscapeIsUnicode rest

/-- The n-th token (0-based) of the stream NextToken produces from a lexer
state. -/
def nthToken (l : Lexer) : Nat → Token
  | 0 => (NextToken l).1
  | n + 1 => nthToken (NextToken l).2 n

/-- The lexer state after n calls to NextToken. -/
def lexIter (l : Lexer) : Nat → Lexer
  | 0 => l
  | n + 1 => lexIter (NextToken l).2 n

/-! ## Helper lemmas -/

theorem skipWhitespace_of_not_ws (fuel : Nat) (l : Lexer)
    (h : ¬ (l.ch = 32 ∨ l.ch = 9 ∨ l.ch = 10 ∨ l.ch = 13)) :
    skipWhitespace fuel l = l := by
  cases fuel <;> simp [skipWhitespace, h]

theorem nextToken_at_eof (l : Lexer) (h0 : l.ch = 0)
    (hend : l.input.length ≤ l.readPosition) :
    NextToken l = (⟨EOF, [], ⟨l.line, l.column⟩⟩,
      { input := l.input, position := l.readPosition, readPosition := l.readPosition + 1,
        ch := 0, line := l.line, column := l.column + 1 }) := by
  have hns : skipWhitespace (l.input.length + 2) l = l :=
    skipWhitespace_of_not_ws _ _ (by simp [h0])
  simp only [NextToken, hns, h0, readChar]
  norm_num [Nat.not_lt.mpr hend, hend]

theorem parseFileLoop_ok_ne_nil (fuel : Nat) :
    ∀ (elems : List Element) (p : Parser) (jf : JSONFile),
      parseFileLoop fuel elems p = .ok jf →
      (elems = [] → pCurTokenIs p EOF = false) → jf.Elements ≠ [] := by
  induction fuel with
  | zero =>
    intro elems p jf h _
    simp [parseFileLoop] at h
  | succ n ih =>
    intro elems p jf h hne
    rw [parseFileLoop] at h
    by_cases he : pCurTokenIs p EOF
    · simp only [he, if_true] at h
      obtain rfl : (⟨elems⟩ : JSONFile) = jf := by simpa using h
      intro hnil
      rw [hne hnil] at he
      simp at he
    · simp only [he, if_false, Bool.false_eq_true] at h
      cases hpe : parseElement n p with
      | error e => rw [hpe] at h; exact absurd h (by simp)
      | ok ep =>
        rw [hpe] at h
        exact ih (elems ++ [ep.1]) (pNextToken ep.2) jf h (by simp)

/-! ## C10 -/

/-- C10: if ParseFile returns a document without error, its element list is
non-empty (the entry check forces a first iteration before EOF), so the
document-level generic projection, which unconditionally reads the first
element, never indexes out of bounds. -/
theorem parseFile_ok_projection_safe (fuel : Nat) (p : Parser) (jf : JSONFile)
    (h : ParseFile fuel p = .ok jf) :
    jf.Elements ≠ [] ∧ jf.toInterface.isSome := by
  unfold ParseFile at h
  by_cases hg : ¬ pCurTokenIs p LBRACE ∧ ¬ pCurTokenIs p LBRACKET
  · rw [if_pos hg] at h
    exact absurd h (by simp)
  · rw [if_neg hg] at h
    have hcur : pCurTokenIs p LBRACE = true ∨ pCurTokenIs p LBRACKET = true := by
      rcases Decidable.not_and_iff_or_not.mp hg with hc | hc
      · exact Or.inl (by revert hc; cases pCurTokenIs p LBRACE <;> simp)
      · exact Or.inr (by revert hc; cases pCurTokenIs p LBRACKET <;> simp)
    have hne : jf.Elements ≠ [] := by
      refine parseFileLoop_ok_ne_nil fuel [] p jf h (fun _ => ?_)
      rcases hcur with hc | hc <;>
        · simp only [pCurTokenIs] at hc ⊢
          rw [of_decide_eq_true hc]
          decide
    refine ⟨hne, ?_⟩
    cases hjf : jf.Elements with
    | nil => exact absurd hjf hne
    | cons e rest => simp [JSONFile.toInterface, hjf]

/-- Witness for C10 at the input text of two bytes, an open and a close
brace. -/
theorem parseFile_ok_projection_safe_witness :
    (⟨[Element.object ⟨LBRACE, [123], ⟨1, 1⟩⟩ []]⟩ : JSONFile).Elements ≠ [] ∧
    (⟨[Element.object ⟨LBRACE, [123], ⟨1, 1⟩⟩ []]⟩ : JSONFile).toInterface.isSome :=
  parseFile_ok_projection_safe 8 (parserNew (lexerNew (strToBytes "\x7b\x7d"))) _ rfl

/-! ## C2 -/

/-- C2 counterexample: on the input obtained from the valid document
`["value1"]` by inserting one character, a trailing comma, the parse error's
position is (1,12), the position of the EOF token after the offending comma,
not (1,11), the position of the comma's first character. -/
theorem top_level_error_position_cex :
    parseInput "[\"value1\"]," = .error ⟨"Expected 'EOF', got ',' instead\n", ⟨1, 12⟩⟩ ∧
    nthToken (lexerNew (strToBytes "[\"value1\"],")) 3 = ⟨COMMA, [44], ⟨1, 11⟩⟩ ∧
    nthToken (lexerNew (strToBytes "[\"value1\"],")) 4 = ⟨EOF, [], ⟨1, 12⟩⟩ ∧
    ((⟨1, 12⟩ : Position) ≠ ⟨1, 11⟩) :=
  ⟨rfl, rfl, rfl, by decide⟩

/-- C2 amended: errors raised by parseElement's top-level rejection carry the
position of the token after the offending current token (the peek token),
not the offending token's own first character. -/
theorem parseElement_reject_peek_pos (fuel : Nat) (p : Parser)
    (h1 : p.curToken.type ≠ LBRACE) (h2 : p.curToken.type ≠ LBRACKET) :
    parseElement fuel p =
      .error ⟨"Expected 'EOF', got '" ++ p.curToken.type ++ "' instead\n", p.peekToken.pos⟩ := by
  simp [parseElement, h1, h2]

/-- Witness for C2's amended theorem: a parser state whose current token is
the comma of the counterexample input. -/
theorem parseElement_reject_peek_pos_witness :
    parseElement 5 (pNextToken (pNextToken (pNextToken (parserNew
        (lexerNew (strToBytes "[\"value1\"],")))))) =
      .error ⟨"Expected 'EOF', got ',' instead\n", ⟨1, 12⟩⟩ := by
  rw [parseElement_reject_peek_pos 5 _ (by decide) (by decide)]
  rfl

/-! ## C8 -/

/-- C8: when parseValue has no handler for the current token's kind, the
message depends on the previous token: after a COLON or COMMA the expected
list is STRING, NUMBER, NULL, TRUE, FALSE, brace, bracket; after a LBRACKET
the same list plus the closing bracket; otherwise the generic unexpected-token
message. -/
theorem noParseFn_error_messages (fuel : Nat) (p : Parser)
    (h1 : p.curToken.type ≠ STRING) (h2 : p.curToken.type ≠ TRUE)
    (h3 : p.curToken.type ≠ FALSE) (h4 : p.curToken.type ≠ NULL)
    (h5 : p.curToken.type ≠ NUMBER) (h6 : p.curToken.type ≠ LBRACKET)
    (h7 : p.curToken.type ≠ LBRACE) :
    parseValue (fuel + 1) p = .error (noParseFnError p p.curToken) ∧
    noParseFnError p p.curToken =
      (if p.prvToken.type = COLON ∨ p.prvToken.type = COMMA then
        ⟨"Expected 'STRING', 'NUMBER', 'NULL', 'TRUE', 'FALSE', '\x7b', '[', got '" ++
          p.curToken.type ++ "' instead\n", p.curToken.pos⟩
      else if p.prvToken.type = LBRACKET then
        ⟨"Expected 'STRING', 'NUMBER', 'NULL', 'TRUE', 'FALSE', '\x7b', '[', ']', got '" ++
          p.curToken.type ++ "' instead\n", p.curToken.pos⟩
      else
        ⟨"Unexpected token found '" ++ p.curToken.type ++ "'\n", p.curToken.pos⟩) := by
  constructor
  · simp [parseValue, h1, h2, h3, h4, h5, h6, h7]
  · by_cases hc : p.prvToken.type = COLON
    · simp [noParseFnError, hc]
    · by_cases hm : p.prvToken.type = COMMA
      · have d1 : ¬ ((COMMA : TokenType) = COLON) := by decide
        have d2 : ¬ ((COMMA : TokenType) = LBRACKET) := by decide
        simp [noParseFnError, hm, d1, d2]
      · by_cases hb : p.prvToken.type = LBRACKET
        · have d1 : ¬ ((LBRACKET : TokenType) = COLON) := by decide
          have d2 : ¬ ((LBRACKET : TokenType) = COMMA) := by decide
          simp [noParseFnError, hb, d1, d2]
        · simp [noParseFnError, hc, hm, hb]

/-- Witness for C8: previous token COLON, current token RBRACE (which has no
handler). -/
theorem noParseFn_error_messages_witness :
    parseValue 3 (⟨lexerNew [], ⟨COLON, [58], ⟨1, 4⟩⟩, ⟨RBRACE, [125], ⟨1, 5⟩⟩,
        ⟨EOF, [], ⟨1, 6⟩⟩⟩ : Parser) =
      .error ⟨"Expected 'STRING', 'NUMBER', 'NULL', 'TRUE', 'FALSE', '\x7b', '[', got '\x7d' instead\n",
        ⟨1, 5⟩⟩ := by
  have h := noParseFn_error_messages 2
    (⟨lexerNew [], ⟨COLON, [58], ⟨1, 4⟩⟩, ⟨RBRACE, [125], ⟨1, 5⟩⟩, ⟨EOF, [], ⟨1, 6⟩⟩⟩ : Parser)
    (by decide) (by decide) (by decide) (by decide) (by decide) (by decide) (by decide)
  rw [h.1, h.2]
  rfl

/-! ## C9 -/

/-- C9 counterexample: after the one-byte input of an open brace is
exhausted, the second and third NextToken calls both return EOF with the
empty literal, but their recorded positions differ (the trailing readChar of
the EOF branch keeps incrementing the column), so post-exhaustion calls are
not idempotent in position. -/
theorem eof_not_idempotent_cex :
    (nthToken (lexerNew (strToBytes "\x7b")) 1).type = EOF ∧
    (nthToken (lexerNew (strToBytes "\x7b")) 2).type = EOF ∧
    (nthToken (lexerNew (strToBytes "\x7b")) 1).literal =
      (nthToken (lexerNew (strToBytes "\x7b")) 2).literal ∧
    nthToken (lexerNew (strToBytes "\x7b")) 1 ≠ nthToken (lexerNew (strToBytes "\x7b")) 2 := by
  refine ⟨rfl, rfl, rfl, ?_⟩
  decide

/-- C9 amended: once the input is exhausted (current byte 0 and the read
cursor at or past the end), every further NextToken call returns an EOF token
with the empty literal; the kind and literal are idempotent, but the recorded
position is not: the n-th further call reports the column advanced by n. -/
theorem nextToken_eof_forever (l : Lexer) (h0 : l.ch = 0)
    (hend : l.input.length ≤ l.readPosition) (n : Nat) :
    (NextToken (lexIter l n)).1 = ⟨EOF, [], ⟨l.line, l.column + n⟩⟩ := by
  induction n generalizing l with
  | zero => simp [lexIter, nextToken_at_eof l h0 hend]
  | succ m ih =>
    rw [lexIter, nextToken_at_eof l h0 hend]
    have h2 := ih (⟨l.input, l.readPosition, l.readPosition + 1, 0, l.line, l.column + 1⟩ : Lexer)
      rfl (Nat.le_succ_of_le hend)
    simpa [Nat.add_assoc, Nat.add_comm 1 m] using h2

/-- Witness for C9's amended theorem: the exhausted lexer of the one-byte
brace input, two calls past exhaustion. -/
theorem nextToken_eof_forever_witness :
    (NextToken (lexIter (NextToken (lexerNew (strToBytes "\x7b"))).2 2)).1 =
      ⟨EOF, [], ⟨1, 4⟩⟩ := by
  have h := nextToken_eof_forever (NextToken (lexerNew (strToBytes "\x7b"))).2
    (by decide) (by decide) 2
  simpa using h

/-! ## C1 -/

/-- C1 counterexample: on the duplicate-key object of the spec, the error
message is as claimed but its position is (1,11), the position of the COLON
after the second key occurrence, while the second occurrence's key token (the
6th token) sits at (1,8). -/
theorem dup_key_position_cex :
    parseInput "\x7b\"k\":1,\"k\":2\x7d" =
      .error ⟨"Duplicate JSON property '\"k\"'\n", ⟨1, 11⟩⟩ ∧
    nthToken (lexerNew (strToBytes "\x7b\"k\":1,\"k\":2\x7d")) 5 =
      ⟨STRING, strToBytes "k", ⟨1, 8⟩⟩ ∧
    nthToken (lexerNew (strToBytes "\x7b\"k\":1,\"k\":2\x7d")) 6 =
      ⟨COLON, [58], ⟨1, 11⟩⟩ ∧
    ((⟨1, 11⟩ : Position) ≠ ⟨1, 8⟩) :=
  ⟨rfl, rfl, rfl, by decide⟩

/-- C1 amended: when an object key's rendered quoted text is byte-identical
to a previously inserted key, parseObject fails with the claimed duplicate
message, but the reported position is that of the COLON token consumed just
after the second occurrence's key (here p1.peekToken, required to be the
colon), not the key token's own position. -/
theorem parseObject_duplicate_error (fuel : Nat) (pairs : List (Element × Element))
    (p : Parser) (prop : Element) (p1 : Parser)
    (h0 : pPeekTokenIs p RBRACE = false)
    (h1 : parseValue fuel (pNextToken p) = .ok (prop, p1))
    (h2 : p1.peekToken.type = COLON)
    (h3 : isDuplicateProperty pairs prop = true) :
    parseObjectLoop (fuel + 1) pairs p =
      .error ⟨"Duplicate JSON property '" ++ prop.render ++ "'\n", p1.peekToken.pos⟩ := by
  rw [parseObjectLoop]
  simp only [h0, Bool.false_eq_true, if_false, h1]
  have hok : expectPeek p1 COLON = .ok (pNextToken p1) := by
    simp [expectPeek, pPeekTokenIs, h2]
  rw [hok]
  simp [h3, pNextToken]

/-- Witness for C1's amended theorem, on a parser state mid-way through the
counterexample object: the duplicate key at (1,8), the colon at (1,11). -/
theorem parseObject_duplicate_error_witness :
    parseObjectLoop 2
      [(Element.strLit ⟨STRING, strToBytes "k", ⟨1, 2⟩⟩ (strToBytes "k"),
        Element.number ⟨NUMBER, [49], ⟨1, 6⟩⟩ ⟨1, 0⟩)]
      (⟨(⟨strToBytes ":2\x7d", 0, 1, 58, 1, 11⟩ : Lexer), ⟨NUMBER, [49], ⟨1, 6⟩⟩, ⟨COMMA, [44], ⟨1, 7⟩⟩,
        ⟨STRING, strToBytes "k", ⟨1, 8⟩⟩⟩ : Parser) =
      .error ⟨"Duplicate JSON property '\"k\"'\n", ⟨1, 11⟩⟩ := by
  have h := parseObject_duplicate_error 1
    [(Element.strLit ⟨STRING, strToBytes "k", ⟨1, 2⟩⟩ (strToBytes "k"),
      Element.number ⟨NUMBER, [49], ⟨1, 6⟩⟩ ⟨1, 0⟩)]
    (⟨(⟨strToBytes ":2\x7d", 0, 1, 58, 1, 11⟩ : Lexer), ⟨NUMBER, [49], ⟨1, 6⟩⟩, ⟨COMMA, [44], ⟨1, 7⟩⟩,
      ⟨STRING, strToBytes "k", ⟨1, 8⟩⟩⟩ : Parser)
    (Element.strLit ⟨STRING, strToBytes "k", ⟨1, 8⟩⟩ (strToBytes "k"))
    (pNextToken (⟨(⟨strToBytes ":2\x7d", 0, 1, 58, 1, 11⟩ : Lexer), ⟨NUMBER, [49], ⟨1, 6⟩⟩, ⟨COMMA, [44], ⟨1, 7⟩⟩,
      ⟨STRING, strToBytes "k", ⟨1, 8⟩⟩⟩ : Parser))
    rfl rfl rfl rfl
  rw [h]
  rfl

/-! ## C7 -/

/-- C7: ParseFile's top-level loop accepts concatenated object/array values,
appending every successfully parsed element and continuing until EOF; the
document-level generic projection returns only the first element's
projection, independent of the rest; and on the input of two concatenated
empty objects ParseFile succeeds with both elements while the projection is
the first element's alone. -/
theorem concatenated_top_level :
    (∀ (fuel : Nat) (elems : List Element) (p : Parser) (e : Element) (p' : Parser),
      pCurTokenIs p EOF = false → parseElement fuel p = .ok (e, p') →
      parseFileLoop (fuel + 1) elems p = parseFileLoop fuel (elems ++ [e]) (pNextToken p')) ∧
    (∀ (e : Element) (rest : List Element),
      JSONFile.toInterface ⟨e :: rest⟩ = some e.toInterface) ∧
    (parseInput "\x7b\x7d  \x7b\x7d" =
      .ok ⟨[Element.object ⟨LBRACE, [123], ⟨1, 1⟩⟩ [],
            Element.object ⟨LBRACE, [123], ⟨1, 5⟩⟩ []]⟩ ∧
     JSONFile.toInterface ⟨[Element.object ⟨LBRACE, [123], ⟨1, 1⟩⟩ [],
            Element.object ⟨LBRACE, [123], ⟨1, 5⟩⟩ []]⟩ =
       some (Element.object ⟨LBRACE, [123], ⟨1, 1⟩⟩ []).toInterface) := by
  refine ⟨?_, ?_, rfl, rfl⟩
  · intro fuel elems p e p' hne hpe
    rw [parseFileLoop]
    simp [hne, hpe]
  · intro e rest
    rfl

/-- Witness for C7, instantiating the loop-step with the state after the
first empty object of the two-object input. -/
theorem concatenated_top_level_witness :
    parseFileLoop 21 [] (parserNew (lexerNew (strToBytes "\x7b\x7d  \x7b\x7d"))) =
      parseFileLoop 20 [Element.object ⟨LBRACE, [123], ⟨1, 1⟩⟩ []]
        (pNextToken (⟨(⟨strToBytes "\x7b\x7d  \x7b\x7d", 5, 6, 125, 1, 6⟩ : Lexer),
          ⟨LBRACE, [123], ⟨1, 1⟩⟩, ⟨RBRACE, [125], ⟨1, 2⟩⟩, ⟨LBRACE, [123], ⟨1, 5⟩⟩⟩ : Parser)) :=
  concatenated_top_level.1 20 [] (parserNew (lexerNew (strToBytes "\x7b\x7d  \x7b\x7d")))
    (Element.object ⟨LBRACE, [123], ⟨1, 1⟩⟩ [])
    (⟨(⟨strToBytes "\x7b\x7d  \x7b\x7d", 5, 6, 125, 1, 6⟩ : Lexer),
      ⟨LBRACE, [123], ⟨1, 1⟩⟩, ⟨RBRACE, [125], ⟨1, 2⟩⟩, ⟨LBRACE, [123], ⟨1, 5⟩⟩⟩ : Parser)
    rfl rfl

/-! ## C4 -/

theorem list_drop_cons : ∀ (l : List Nat) (n : Nat), n < l.length →
    l.drop n = l.getD n 0 :: l.drop (n + 1)
  | a :: t, 0, _ => rfl
  | a :: t, n + 1, h => by
    simpa using list_drop_cons t n (by simpa using h)

theorem list_take_takeWhile (p : Nat → Bool) :
    ∀ l : List Nat, l.take (l.takeWhile p).length = l.takeWhile p := by
  intro l
  induction l with
  | nil => rfl
  | cons a t ih =>
    by_cases h : p a
    · simp [List.takeWhile_cons, h, ih]
    · simp [List.takeWhile_cons, h]

theorem readNumberLoop_token (input : List Nat) : ∀ (tw fuel : Nat) (l : Lexer)
    (start : Nat) (sp : Position),
    l.input = input → l.readPosition = l.position + 1 →
    ((input.drop l.readPosition).takeWhile inNumCharset).length = tw →
    tw + 1 ≤ fuel →
    (readNumberLoop start sp fuel l).1 =
      ⟨if numberGrammar (slice input start (l.position + tw + 1)) then NUMBER else ILLEGAL,
       slice input start (l.position + tw + 1), sp⟩ := by
  intro tw
  induction tw with
  | zero =>
    intro fuel l start sp hin hrp htw hfuel
    obtain ⟨f, rfl⟩ : ∃ f, fuel = f + 1 := ⟨fuel - 1, by omega⟩
    have hpeek : inNumCharset (peekChar l) = false := by
      rw [peekChar]
      by_cases hend : l.readPosition ≥ l.input.length
      · rw [if_pos hend]
        decide
      · rw [if_neg hend]
        push_neg at hend
        have hend' : l.readPosition < input.length := by rw [← hin]; exact hend
        rw [list_drop_cons input l.readPosition hend', List.takeWhile_cons] at htw
        by_cases hc : inNumCharset (input.getD l.readPosition 0) = true
        · rw [if_pos hc] at htw
          simp at htw
        · rw [hin]
          simpa using hc
    rw [readNumberLoop, hpeek, hin]
    simp only [Bool.false_eq_true, if_false, Nat.add_zero]
    split <;> simp_all
  | succ m ih =>
    intro fuel l start sp hin hrp htw hfuel
    obtain ⟨f, rfl⟩ : ∃ f, fuel = f + 1 := ⟨fuel - 1, by omega⟩
    have hlt : l.readPosition < l.input.length := by
      by_contra hge
      push_neg at hge
      rw [hin] at hge
      rw [List.drop_eq_nil_of_le (by omega)] at htw
      simp at htw
    have hlt' : l.readPosition < input.length := by rw [← hin]; exact hlt
    have hdc := list_drop_cons input l.readPosition hlt'
    rw [hdc, List.takeWhile_cons] at htw
    have hc : inNumCharset (input.getD l.readPosition 0) = true := by
      by_contra hcf
      rw [if_neg (by simpa using hcf)] at htw
      simp at htw
    rw [if_pos hc] at htw
    simp only [List.length_cons, Nat.add_right_cancel_iff] at htw
    have hpeek : inNumCharset (peekChar l) = true := by
      rw [peekChar, if_neg (Nat.not_le.mpr hlt), hin]
      exact hc
    rw [readNumberLoop, if_pos hpeek]
    have hrc := ih f (readChar l) start sp
      (by simp [readChar, hin])
      (by simp [readChar])
      (by simpa [readChar] using htw)
      (by omega)
    rw [hrc]
    have hpos : (readChar l).position = l.position + 1 := by
      rw [show (readChar l).position = l.readPosition from rfl, hrp]
    rw [hpos]
    have harith : l.position + 1 + m + 1 = l.position + (m + 1) + 1 := by omega
    rw [harith]

/-- C4: when the current character starts number scanning (a minus sign or a
digit at the cursor), the tokenizer consumes exactly the maximal run of bytes
drawn from digits and `.` `-` `+` `e` `E`, and yields a NUMBER token with
that run as literal when the run matches the strict grammar
`-?(0|[1-9][0-9]*)(\.[0-9]+)?([eE][-+]?[0-9]+)?`, and a single ILLEGAL token
with the same run otherwise; the token's position is the run's first
character. -/
theorem readNumber_maximal_run (l : Lexer)
    (hrp : l.readPosition = l.position + 1)
    (hlt : l.position < l.input.length)
    (hch : l.input.getD l.position 0 = l.ch)
    (hstart : l.ch = 45 ∨ isDigit l.ch = true) :
    (NextToken l).1 =
      ⟨if numberGrammar ((l.input.drop l.position).takeWhile inNumCharset) then NUMBER
        else ILLEGAL,
       (l.input.drop l.position).takeWhile inNumCharset, ⟨l.line, l.column⟩⟩ := by
  have hchv : l.ch = 45 ∨ (48 ≤ l.ch ∧ l.ch ≤ 57) := by
    rcases hstart with h | h
    · exact Or.inl h
    · exact Or.inr (by simpa [isDigit, decide_eq_true_iff] using h)
  have hrun : (l.input.drop l.position).takeWhile inNumCharset =
      l.ch :: (l.input.drop l.readPosition).takeWhile inNumCharset := by
    rw [list_drop_cons l.input l.position hlt, hch, hrp, List.takeWhile_cons,
      if_pos (by simp [inNumCharset, isDigit]; omega)]
  have hns : skipWhitespace (l.input.length + 2) l = l :=
    skipWhitespace_of_not_ws _ _ (by omega)
  have hnumber : (NextToken l).1 = (readNumber l).1 := by
    have hletter : isLetter l.ch = false := by
      simp [isLetter]
      omega
    rw [NextToken, hns]
    have c1 : l.ch ≠ 123 := by omega
    have c2 : l.ch ≠ 125 := by omega
    have c3 : l.ch ≠ 91 := by omega
    have c4 : l.ch ≠ 93 := by omega
    have c5 : l.ch ≠ 44 := by omega
    have c6 : l.ch ≠ 58 := by omega
    have c7 : l.ch ≠ 34 := by omega
    have c8 : l.ch ≠ 0 := by omega
    have c9 : l.ch = 45 ∨ isDigit l.ch = true := hstart
    simp [c1, c2, c3, c4, c5, c6, c7, c8, c9, hletter]
  rw [hnumber, readNumber]
  have hlen : ((l.input.drop l.readPosition).takeWhile inNumCharset).length + 1 ≤
      l.input.length + 2 := by
    have h1 : ((l.input.drop l.readPosition).takeWhile inNumCharset).length ≤
        (l.input.drop l.readPosition).length :=
      List.IsPrefix.length_le (List.takeWhile_prefix _)
    have h2 : (l.input.drop l.readPosition).length ≤ l.input.length := by
      simp
    omega
  rw [readNumberLoop_token l.input _ (l.input.length + 2) l l.position ⟨l.line, l.column⟩
    rfl hrp rfl hlen]
  have hcs : inNumCharset l.ch = true := by
    simp [inNumCharset, isDigit]
    omega
  have hslice : slice l.input l.position
      (l.position + ((l.input.drop l.readPosition).takeWhile inNumCharset).length + 1) =
      (l.input.drop l.position).takeWhile inNumCharset := by
    rw [slice]
    have hb : l.position + ((l.input.drop l.readPosition).takeWhile inNumCharset).length + 1
        - l.position = ((l.input.drop l.readPosition).takeWhile inNumCharset).length + 1 := by
      omega
    rw [hb, list_drop_cons l.input l.position hlt, hch, hrp, List.take_succ_cons,
      List.takeWhile_cons, if_pos hcs, list_take_takeWhile]
  rw [hslice]

/-- Witness for C4 at the inputs -056 (greedy run fails the grammar: one
ILLEGAL token spanning the run), 1e5 (grammar match: NUMBER) and -f123 (bare
minus before a non-run byte: ILLEGAL with literal `-`). -/
theorem readNumber_maximal_run_witness :
    (NextToken (lexerNew (strToBytes "-056"))).1 =
      ⟨ILLEGAL, strToBytes "-056", ⟨1, 1⟩⟩ ∧
    (NextToken (lexerNew (strToBytes "1e5"))).1 =
      ⟨NUMBER, strToBytes "1e5", ⟨1, 1⟩⟩ ∧
    (NextToken (lexerNew (strToBytes "-f123"))).1 =
      ⟨ILLEGAL, strToBytes "-", ⟨1, 1⟩⟩ := by
  refine ⟨?_, ?_, ?_⟩
  · rw [readNumber_maximal_run (lexerNew (strToBytes "-056")) rfl (by decide) rfl
      (by decide)]
    rfl
  · rw [readNumber_maximal_run (lexerNew (strToBytes "1e5")) rfl (by decide) rfl
      (by decide)]
    rfl
  · rw [readNumber_maximal_run (lexerNew (strToBytes "-f123")) rfl (by decide) rfl
      (by decide)]
    rfl

/-! ## C6 -/

theorem trailingRun_le (t : List Nat) : trailingBackslashRun t ≤ t.length := by
  have h := List.IsPrefix.length_le (List.takeWhile_prefix (l := t.reverse)
    (p := fun c => c == 92))
  simpa [trailingBackslashRun] using h

theorem trailingRun_cons (a : Nat) (t : List Nat) :
    trailingBackslashRun (a :: t) =
      if a = 92 ∧ trailingBackslashRun t = t.length then t.length + 1
      else trailingBackslashRun t := by
  rw [trailingBackslashRun, List.reverse_cons, List.takeWhile_append]
  by_cases ht : ((t.reverse.takeWhile fun c => c == 92)).length = t.reverse.length
  · rw [if_pos ht]
    by_cases ha : a = 92
    · rw [if_pos ⟨ha, by simpa [trailingBackslashRun] using ht⟩]
      simp [List.takeWhile_cons, ha]
    · rw [if_neg (by rintro ⟨h92, _⟩; exact ha h92)]
      have hta : (List.takeWhile (fun c => c == 92) [a]) = [] := by
        simp [List.takeWhile_cons, ha]
      simp only [hta, List.append_nil]
      exact ht.symm
  · rw [if_neg ht, if_neg]
    · rfl
    · rintro ⟨_, hrt⟩
      exact ht (by simpa [trailingBackslashRun] using hrt)

theorem trailingRun_cons_ne (a : Nat) (t : List Nat) (ha : a ≠ 92) :
    trailingBackslashRun (a :: t) = trailingBackslashRun t := by
  rw [trailingRun_cons, if_neg]
  rintro ⟨h, _⟩
  exact ha h

theorem trailingRun_even_pair (t : List Nat)
    (h : trailingBackslashRun (92 :: 92 :: t) % 2 = 0) :
    trailingBackslashRun t % 2 = 0 := by
  by_cases hall : trailingBackslashRun t = t.length
  · have h1 : trailingBackslashRun (92 :: t) = t.length + 1 := by
      rw [trailingRun_cons, if_pos ⟨rfl, hall⟩]
    have h2 : trailingBackslashRun (92 :: 92 :: t) = t.length + 2 := by
      rw [trailingRun_cons, if_pos ⟨rfl, by simp [h1]⟩]
      simp
    rw [h2] at h
    omega
  · have h1 : trailingBackslashRun (92 :: t) = trailingBackslashRun t := by
      rw [trailingRun_cons, if_neg (by rintro ⟨_, hc⟩; exact hall hc)]
    have h2 : trailingBackslashRun (92 :: 92 :: t) = trailingBackslashRun t := by
      rw [trailingRun_cons, if_neg, h1]
      rintro ⟨_, hc⟩
      rw [h1] at hc
      have := trailingRun_le t
      simp at hc
      omega
    rw [h2] at h
    exact h

theorem trailingRun_even_after_escape (c : Nat) (t : List Nat) (hc : c ≠ 92)
    (h : trailingBackslashRun (92 :: c :: t) % 2 = 0) :
    trailingBackslashRun t % 2 = 0 := by
  have h1 : trailingBackslashRun (c :: t) = trailingBackslashRun t :=
    trailingRun_cons_ne c t hc
  have h2 : trailingBackslashRun (92 :: c :: t) = trailingBackslashRun t := by
    rw [trailingRun_cons, if_neg, h1]
    rintro ⟨_, hcl⟩
    rw [h1] at hcl
    have := trailingRun_le t
    simp at hcl
    omega
  rw [h2] at h
  exact h

theorem isHexDigit_ne_92 (c : Nat) (h : isHexDigit c = true) : c ≠ 92 := by
  rintro rfl
  simp [isHexDigit] at h

theorem specEscapesValid_cons_ne (a : Nat) (rest : List Nat) (ha : a ≠ 92) :
    specEscapesValid (a :: rest) = specEscapesValid rest := by
  rw [specEscapesValid.eq_def]
  simp [ha]

theorem firstBad_cons_ne (a : Nat) (rest : List Nat) (ha : a ≠ 92) :
    firstBadEscapeIsUnicode (a :: rest) = firstBadEscapeIsUnicode rest := by
  rw [firstBadEscapeIsUnicode.eq_def]
  simp [ha]

theorem specEscapesValid_simple (c : Nat) (rest' : List Nat) (hc : isSimpleEscape c = true) :
    specEscapesValid (92 :: c :: rest') = specEscapesValid rest' := by
  rw [specEscapesValid.eq_def]
  simp [hc]

theorem firstBad_simple (c : Nat) (rest' : List Nat) (hc : isSimpleEscape c = true) :
    firstBadEscapeIsUnicode (92 :: c :: rest') = firstBadEscapeIsUnicode rest' := by
  rw [firstBadEscapeIsUnicode.eq_def]
  simp [hc]

theorem specEscapesValid_bad (c : Nat) (rest' : List Nat) (hs : isSimpleEscape c = false)
    (hu : c ≠ 117) : specEscapesValid (92 :: c :: rest') = false := by
  rw [specEscapesValid.eq_def]
  simp [hs, hu]

theorem firstBad_bad (c : Nat) (rest' : List Nat) (hs : isSimpleEscape c = false)
    (hu : c ≠ 117) : firstBadEscapeIsUnicode (92 :: c :: rest') = false := by
  rw [firstBadEscapeIsUnicode.eq_def]
  simp [hs, hu]

theorem specEscapesValid_u4 (h1 h2 h3 h4 : Nat) (r4 : List Nat) :
    specEscapesValid (92 :: 117 :: h1 :: h2 :: h3 :: h4 :: r4) =
      if isHexDigit h1 = true ∧ isHexDigit h2 = true ∧ isHexDigit h3 = true ∧
          isHexDigit h4 = true then specEscapesValid r4 else false := by
  rw [specEscapesValid.eq_def]
  simp [isSimpleEscape]

theorem firstBad_u4 (h1 h2 h3 h4 : Nat) (r4 : List Nat) :
    firstBadEscapeIsUnicode (92 :: 117 :: h1 :: h2 :: h3 :: h4 :: r4) =
      if isHexDigit h1 = true ∧ isHexDigit h2 = true ∧ isHexDigit h3 = true ∧
          isHexDigit h4 = true then firstBadEscapeIsUnicode r4 else true := by
  rw [firstBadEscapeIsUnicode.eq_def]
  simp [isSimpleEscape]

theorem specEscapesValid_u_short0 : specEscapesValid [92, 117] = false := by decide

theorem specEscapesValid_u_short1 (x : Nat) : specEscapesValid [92, 117, x] = false := by
  rw [specEscapesValid.eq_def]
  simp [isSimpleEscape]

theorem specEscapesValid_u_short2 (x y : Nat) :
    specEscapesValid [92, 117, x, y] = false := by
  rw [specEscapesValid.eq_def]
  simp [isSimpleEscape]

theorem specEscapesValid_u_short3 (x y z : Nat) :
    specEscapesValid [92, 117, x, y, z] = false := by
  rw [specEscapesValid.eq_def]
  simp [isSimpleEscape]

theorem firstBad_u_short0 : firstBadEscapeIsUnicode [92, 117] = true := by decide

theorem firstBad_u_short1 (x : Nat) : firstBadEscapeIsUnicode [92, 117, x] = true := by
  rw [firstBadEscapeIsUnicode.eq_def]
  simp [isSimpleEscape]

theorem firstBad_u_short2 (x y : Nat) :
    firstBadEscapeIsUnicode [92, 117, x, y] = true := by
  rw [firstBadEscapeIsUnicode.eq_def]
  simp [isSimpleEscape]

theorem firstBad_u_short3 (x y z : Nat) :
    firstBadEscapeIsUnicode [92, 117, x, y, z] = true := by
  rw [firstBadEscapeIsUnicode.eq_def]
  simp [isSimpleEscape]

theorem parseStringLoop_spec (tokPos : Position) (str : List Nat) :
    ∀ fuel i : Nat, str.length - i + 1 ≤ fuel →
    trailingBackslashRun (str.drop i) % 2 = 0 →
    parseStringLoop tokPos str fuel i =
      (if specEscapesValid (str.drop i) = true then none
       else some ⟨(if firstBadEscapeIsUnicode (str.drop i) = true then
            "Invalid unicode escape sequence\n"
          else "Invalid escape sequence\n"), tokPos⟩) := by
  intro fuel
  induction fuel with
  | zero =>
    intro i hfuel _
    omega
  | succ f ih =>
    intro i hfuel heven
    rw [parseStringLoop]
    by_cases hi : i < str.length
    case neg =>
      rw [if_neg hi, List.drop_eq_nil_of_le (by omega)]
      simp [specEscapesValid]
    case pos =>
      rw [if_pos hi]
      have hdrop := list_drop_cons str i hi
      by_cases ha : str.getD i 0 = 92
      case neg =>
        rw [if_neg (by rintro ⟨h92, _⟩; exact ha h92)]
        have heven1 : trailingBackslashRun (str.drop (i + 1)) % 2 = 0 := by
          have hrne := trailingRun_cons_ne (str.getD i 0) (str.drop (i + 1)) ha
          rw [hdrop, hrne] at heven
          exact heven
        rw [ih (i + 1) (by omega) heven1, hdrop,
          specEscapesValid_cons_ne _ _ ha, firstBad_cons_ne _ _ ha]
      case pos =>
        by_cases hi1 : i + 1 < str.length
        case neg =>
          have hnil : str.drop (i + 1) = [] := List.drop_eq_nil_of_le (by omega)
          rw [hdrop, ha, hnil] at heven
          exact absurd heven (by decide)
        case pos =>
          rw [if_pos ⟨ha, hi1⟩]
          have hdrop1 := list_drop_cons str (i + 1) hi1
          have hdi : str.drop i = 92 :: str.getD (i + 1) 0 :: str.drop (i + 2) := by
            rw [hdrop, ha, hdrop1]
          have heven2 : trailingBackslashRun
              (92 :: str.getD (i + 1) 0 :: str.drop (i + 2)) % 2 = 0 := by
            rw [← hdi]
            exact heven
          have hgd : (92 :: str.getD (i + 1) 0 :: str.drop (i + 2)).getD 1 0 =
              str.getD (i + 1) 0 := rfl
          by_cases hsimp : isSimpleEscape (str.getD (i + 1) 0) = true
          · -- one of the eight single-character escapes
            have hdisj : str.getD (i + 1) 0 = 34 ∨ str.getD (i + 1) 0 = 92 ∨
                str.getD (i + 1) 0 = 47 ∨ str.getD (i + 1) 0 = 98 ∨
                str.getD (i + 1) 0 = 102 ∨ str.getD (i + 1) 0 = 110 ∨
                str.getD (i + 1) 0 = 114 ∨ str.getD (i + 1) 0 = 116 := by
              simpa [isSimpleEscape] using hsimp
            have hck : checkEscapedSequence tokPos (str.drop i) = (2, none) := by
              rw [hdi, checkEscapedSequence, hgd, if_pos hdisj]
            have hck1 : (checkEscapedSequence tokPos (str.drop i)).1 = 2 := by rw [hck]
            have hck2 : (checkEscapedSequence tokPos (str.drop i)).2 = none := by rw [hck]
            have heven3 : trailingBackslashRun (str.drop (i + 2)) % 2 = 0 := by
              by_cases hc92 : str.getD (i + 1) 0 = 92
              · rw [hc92] at heven2
                exact trailingRun_even_pair _ heven2
              · exact trailingRun_even_after_escape _ _ hc92 heven2
            rw [hck1, hck2, if_pos ⟨by norm_num, rfl⟩, ih (i + 2) (by omega) heven3, hdi,
              specEscapesValid_simple _ _ hsimp, firstBad_simple _ _ hsimp]
          · by_cases hu : str.getD (i + 1) 0 = 117
            · -- a u escape: the shape of the following bytes decides
              rcases ht4 : str.drop (i + 2) with _ | ⟨h1, t1⟩
              · have hck : checkEscapedSequence tokPos (str.drop i) =
                    (0, some ⟨"Invalid unicode escape sequence\n", tokPos⟩) := by
                  rw [hdi, ht4, hu, checkEscapedSequence]
                  rfl
                have hck1 : (checkEscapedSequence tokPos (str.drop i)).1 = 0 := by rw [hck]
                have hck2 : (checkEscapedSequence tokPos (str.drop i)).2 =
                    some ⟨"Invalid unicode escape sequence\n", tokPos⟩ := by rw [hck]
                rw [hck1, hck2, if_neg (by simp), hdi, ht4, hu, specEscapesValid_u_short0,
                  firstBad_u_short0]
                rfl
              · rcases t1 with _ | ⟨h2, t2⟩
                · have hck : checkEscapedSequence tokPos (str.drop i) =
                      (0, some ⟨"Invalid unicode escape sequence\n", tokPos⟩) := by
                    rw [hdi, ht4, hu, checkEscapedSequence]
                    rfl
                  have hck1 : (checkEscapedSequence tokPos (str.drop i)).1 = 0 := by rw [hck]
                  have hck2 : (checkEscapedSequence tokPos (str.drop i)).2 =
                      some ⟨"Invalid unicode escape sequence\n", tokPos⟩ := by rw [hck]
                  rw [hck1, hck2, if_neg (by simp), hdi, ht4, hu, specEscapesValid_u_short1,
                    firstBad_u_short1]
                  rfl
                · rcases t2 with _ | ⟨h3, t3⟩
                  · have hck : checkEscapedSequence tokPos (str.drop i) =
                        (0, some ⟨"Invalid unicode escape sequence\n", tokPos⟩) := by
                      rw [hdi, ht4, hu, checkEscapedSequence]
                      rfl
                    have hck1 : (checkEscapedSequence tokPos (str.drop i)).1 = 0 := by
                      rw [hck]
                    have hck2 : (checkEscapedSequence tokPos (str.drop i)).2 =
                        some ⟨"Invalid unicode escape sequence\n", tokPos⟩ := by rw [hck]
                    rw [hck1, hck2, if_neg (by simp), hdi, ht4, hu, specEscapesValid_u_short2,
                      firstBad_u_short2]
                    rfl
                  · rcases t3 with _ | ⟨h4, r4⟩
                    · have hck : checkEscapedSequence tokPos (str.drop i) =
                          (0, some ⟨"Invalid unicode escape sequence\n", tokPos⟩) := by
                        rw [hdi, ht4, hu, checkEscapedSequence]
                        rfl
                      have hck1 : (checkEscapedSequence tokPos (str.drop i)).1 = 0 := by
                        rw [hck]
                      have hck2 : (checkEscapedSequence tokPos (str.drop i)).2 =
                          some ⟨"Invalid unicode escape sequence\n", tokPos⟩ := by rw [hck]
                      rw [hck1, hck2, if_neg (by simp), hdi, ht4, hu, specEscapesValid_u_short3,
                        firstBad_u_short3]
                      rfl
                    · -- at least four bytes after the u
                      by_cases hhex : isHexDigit h1 = true ∧ isHexDigit h2 = true ∧
                          isHexDigit h3 = true ∧ isHexDigit h4 = true
                      · have hgdc : (92 :: 117 :: h1 :: h2 :: h3 :: h4 :: r4).getD 1 0 =
                            117 := rfl
                        have hck : checkEscapedSequence tokPos (str.drop i) = (6, none) := by
                          rw [hdi, ht4, hu, checkEscapedSequence, hgdc]
                          rw [if_neg (by decide), if_pos rfl, if_pos]
                          constructor
                          · simp
                          · simp [isValidHexSequence, hhex.1, hhex.2.1, hhex.2.2.1,
                              hhex.2.2.2]
                        have hck1 : (checkEscapedSequence tokPos (str.drop i)).1 = 6 := by
                          rw [hck]
                        have hck2 : (checkEscapedSequence tokPos (str.drop i)).2 = none := by
                          rw [hck]
                        have hdr4 : str.drop (i + 6) = r4 := by
                          have hdd : str.drop (i + 6) = (str.drop (i + 2)).drop 4 := by
                            rw [List.drop_drop]
                          rw [hdd, ht4]
                          rfl
                        have heven4 : trailingBackslashRun (str.drop (i + 6)) % 2 = 0 := by
                          rw [ht4] at heven2
                          have s0 := trailingRun_even_after_escape _ _
                            (by rw [hu]; decide) heven2
                          rw [trailingRun_cons_ne h1 _ (isHexDigit_ne_92 h1 hhex.1),
                            trailingRun_cons_ne h2 _ (isHexDigit_ne_92 h2 hhex.2.1),
                            trailingRun_cons_ne h3 _ (isHexDigit_ne_92 h3 hhex.2.2.1),
                            trailingRun_cons_ne h4 _ (isHexDigit_ne_92 h4 hhex.2.2.2)]
                            at s0
                          rw [hdr4]
                          exact s0
                        rw [hck1, hck2, if_pos ⟨by norm_num, rfl⟩,
                          ih (i + 6) (by omega) heven4, hdr4, hdi,
                          ht4, hu, specEscapesValid_u4, firstBad_u4, if_pos hhex,
                          if_pos hhex]
                      · have hgdc : (92 :: 117 :: h1 :: h2 :: h3 :: h4 :: r4).getD 1 0 =
                            117 := rfl
                        have hck : checkEscapedSequence tokPos (str.drop i) =
                            (0, some ⟨"Invalid unicode escape sequence\n", tokPos⟩) := by
                          rw [hdi, ht4, hu, checkEscapedSequence, hgdc]
                          rw [if_neg (by decide), if_pos rfl, if_neg]
                          rintro ⟨-, hvh⟩
                          simp [isValidHexSequence] at hvh
                          exact hhex ⟨hvh.1, hvh.2.1, hvh.2.2.1, hvh.2.2.2⟩
                        have hck1 : (checkEscapedSequence tokPos (str.drop i)).1 = 0 := by
                          rw [hck]
                        have hck2 : (checkEscapedSequence tokPos (str.drop i)).2 =
                            some ⟨"Invalid unicode escape sequence\n", tokPos⟩ := by rw [hck]
                        rw [hck1, hck2, if_neg (by simp), hdi, ht4, hu, specEscapesValid_u4,
                          firstBad_u4, if_neg hhex, if_neg hhex]
                        rfl
            · -- an invalid non-u escape
              have hsf : isSimpleEscape (str.getD (i + 1) 0) = false := by
                simpa using hsimp
              have hck : checkEscapedSequence tokPos (str.drop i) =
                  (0, some ⟨"Invalid escape sequence\n", tokPos⟩) := by
                rw [hdi, checkEscapedSequence, hgd,
                  if_neg (by simpa [isSimpleEscape] using hsimp), if_neg hu]
              have hck1 : (checkEscapedSequence tokPos (str.drop i)).1 = 0 := by rw [hck]
              have hck2 : (checkEscapedSequence tokPos (str.drop i)).2 =
                  some ⟨"Invalid escape sequence\n", tokPos⟩ := by rw [hck]
              rw [hck1, hck2, if_neg (by simp), hdi, specEscapesValid_bad _ _ hsf hu,
                firstBad_bad _ _ hsf hu]
              rfl

/-- C6: for a STRING token literal (the tokenizer only emits literals whose
trailing backslash run is even), parseString succeeds — storing the raw
undecoded literal — iff every backslash-introduced escape is one of the eight
single-character escapes or `u` plus exactly 4 hex digits; when some escape is
invalid, the message is the unicode one iff the first invalid escape is a
malformed `u` escape, and the reported position is the current token's
position. -/
theorem parseString_escape_spec (p : Parser)
    (heven : trailingBackslashRun p.curToken.literal % 2 = 0) :
    (parseString p = .ok (.strLit p.curToken p.curToken.literal, p) ↔
      specEscapesValid p.curToken.literal = true) ∧
    (specEscapesValid p.curToken.literal = false →
      parseString p = .error ⟨(if firstBadEscapeIsUnicode p.curToken.literal = true then
          "Invalid unicode escape sequence\n" else "Invalid escape sequence\n"),
        p.curToken.pos⟩) := by
  have h0 : p.curToken.literal.drop 0 = p.curToken.literal := List.drop_zero _
  have hl := parseStringLoop_spec p.curToken.pos p.curToken.literal
    (p.curToken.literal.length + 1) 0 (by omega) (by rw [h0]; exact heven)
  rw [h0] at hl
  by_cases hv : specEscapesValid p.curToken.literal = true
  · constructor
    · rw [parseString, hl, if_pos hv]
      simp [hv]
    · intro hnv
      rw [hv] at hnv
      cases hnv
  · constructor
    · rw [parseString, hl, if_neg hv]
      constructor
      · intro habs
        exact absurd habs (by simp)
      · intro htrue
        exact absurd htrue hv
    · intro _
      rw [parseString, hl, if_neg hv]

/-- Witness for C6: a valid literal with one escape, an invalid plain escape,
and a malformed unicode escape, each on the token's own position. -/
theorem parseString_escape_spec_witness :
    parseString (⟨lexerNew [], ⟨"", [], ⟨0, 0⟩⟩,
        ⟨STRING, strToBytes "a\\n", ⟨1, 2⟩⟩, ⟨"", [], ⟨0, 0⟩⟩⟩ : Parser) =
      .ok (.strLit ⟨STRING, strToBytes "a\\n", ⟨1, 2⟩⟩ (strToBytes "a\\n"),
        (⟨lexerNew [], ⟨"", [], ⟨0, 0⟩⟩,
          ⟨STRING, strToBytes "a\\n", ⟨1, 2⟩⟩, ⟨"", [], ⟨0, 0⟩⟩⟩ : Parser)) ∧
    parseString (⟨lexerNew [], ⟨"", [], ⟨0, 0⟩⟩,
        ⟨STRING, strToBytes "b\\qc", ⟨1, 7⟩⟩, ⟨"", [], ⟨0, 0⟩⟩⟩ : Parser) =
      .error ⟨"Invalid escape sequence\n", ⟨1, 7⟩⟩ ∧
    parseString (⟨lexerNew [], ⟨"", [], ⟨0, 0⟩⟩,
        ⟨STRING, strToBytes "\\uXYZZ", ⟨1, 7⟩⟩, ⟨"", [], ⟨0, 0⟩⟩⟩ : Parser) =
      .error ⟨"Invalid unicode escape sequence\n", ⟨1, 7⟩⟩ := by
  refine ⟨?_, ?_, ?_⟩
  · exact (parseString_escape_spec _ (by decide)).1.mpr (by decide)
  · have h := (parseString_escape_spec (⟨lexerNew [], ⟨"", [], ⟨0, 0⟩⟩,
        ⟨STRING, strToBytes "b\\qc", ⟨1, 7⟩⟩, ⟨"", [], ⟨0, 0⟩⟩⟩ : Parser)
        (by decide)).2 (by decide)
    rw [h]
    rfl
  · have h := (parseString_escape_spec (⟨lexerNew [], ⟨"", [], ⟨0, 0⟩⟩,
        ⟨STRING, strToBytes "\\uXYZZ", ⟨1, 7⟩⟩, ⟨"", [], ⟨0, 0⟩⟩⟩ : Parser)
        (by decide)).2 (by decide)
    rw [h]
    rfl

/-! ## C5 -/

theorem list_getD_drop (l : List Nat) : ∀ (n m : Nat), (l.drop n).getD m 0 = l.getD (n + m) 0 := by
  induction l with
  | nil => intro n m; simp
  | cons a t ih =>
    intro n m
    cases n with
    | zero => simp
    | succ n0 =>
      simp only [List.drop_succ_cons]
      rw [ih n0 m, show n0 + 1 + m = (n0 + m) + 1 from by omega]
      rfl

theorem readChar_ch (l : Lexer) : (readChar l).ch = l.input.getD l.readPosition 0 := by
  rw [readChar]
  by_cases h : l.readPosition ≥ l.input.length
  · simp only [h, if_true, ge_iff_le]
    rw [List.getD_eq_default _ _ h]
  · simp [h]

theorem trailingRun_append_one (xs : List Nat) (b : Nat) :
    trailingBackslashRun (xs ++ [b]) =
      if b = 92 then trailingBackslashRun xs + 1 else 0 := by
  by_cases hb : b = 92 <;>
    simp [trailingBackslashRun, List.reverse_append, List.takeWhile_cons, hb]

theorem countBackslashes_bridge (input : List Nat) (q : Nat)
    (hq : input.getD q 0 = 34) :
    ∀ j, j ≤ (input.drop (q + 1)).length →
      countBackslashes input (q + j) =
        trailingBackslashRun ((input.drop (q + 1)).take j) := by
  intro j
  induction j with
  | zero =>
    intro _
    rcases q with _ | q0
    · rw [show (0 : Nat) + 0 = 0 from rfl, countBackslashes, if_neg (by rw [hq]; decide)]
      rfl
    · rw [Nat.add_zero, countBackslashes, if_neg (by rw [hq]; decide)]
      rfl
  | succ j0 ih =>
    intro hj
    have hj0 : j0 ≤ (input.drop (q + 1)).length := by omega
    have hlt : j0 < (input.drop (q + 1)).length := by omega
    have hb : (input.drop (q + 1)).getD j0 0 = input.getD (q + 1 + j0) 0 :=
      list_getD_drop input (q + 1) j0
    have htake : (input.drop (q + 1)).take (j0 + 1) =
        (input.drop (q + 1)).take j0 ++ [(input.drop (q + 1)).getD j0 0] := by
      rw [List.take_succ]
      congr 1
      rw [List.getElem?_eq_getElem hlt]
      simp [List.getD_eq_getElem?_getD, List.getElem?_eq_getElem hlt]
    have hcnt : countBackslashes input (q + (j0 + 1)) =
        if input.getD (q + j0 + 1) 0 = 92 then countBackslashes input (q + j0) + 1
        else 0 := by
      have : q + (j0 + 1) = (q + j0) + 1 := by omega
      rw [this, countBackslashes]
    rw [hcnt, htake, trailingRun_append_one, hb]
    have harr : q + 1 + j0 = q + j0 + 1 := by omega
    rw [harr]
    by_cases h92 : input.getD (q + j0 + 1) 0 = 92
    · rw [if_pos h92, if_pos h92, ih hj0]
    · rw [if_neg h92, if_neg h92]

theorem readStringLoop_spec (input : List Nat) (q : Nat) (hq : input.getD q 0 = 34)
    (startPos : Position) :
    ∀ fuel k (l : Lexer), l.input = input → l.position = q + k →
    l.readPosition = l.position + 1 →
    (input.drop (q + 1)).length + 1 - k ≤ fuel →
    (∀ i, i < k → strStop (input.drop (q + 1)) i = false) →
    ∃ j, k ≤ j ∧ (∀ i, i < j → strStop (input.drop (q + 1)) i = false) ∧
      strStop (input.drop (q + 1)) j = true ∧
      (readStringLoop (q + 1) startPos fuel l).1 =
        ⟨if strTerm (input.drop (q + 1)) j then STRING else ILLEGAL,
         (input.drop (q + 1)).take j, startPos⟩ := by
  intro fuel
  induction fuel with
  | zero =>
    intro k l hin hpos hrp hfuel hpre
    have hd : (input.drop (q + 1)).getD ((input.drop (q + 1)).length) 0 = 0 :=
      List.getD_eq_default _ _ (le_refl _)
    have hstop : strStop (input.drop (q + 1)) ((input.drop (q + 1)).length) = true := by
      rw [strStop, decide_eq_true_eq]
      refine Or.inr ?_
      rw [strCtrl, decide_eq_true_eq, hd]
      decide
    have hfalse := hpre ((input.drop (q + 1)).length) (by omega)
    rw [hfalse] at hstop
    cases hstop
  | succ f ih =>
    intro k l hin hpos hrp hfuel hpre
    have hrp' : l.readPosition = q + k + 1 := by omega
    have hch : (readChar l).ch = (input.drop (q + 1)).getD k 0 := by
      rw [readChar_ch, hin, hrp', list_getD_drop]
      congr 1
      omega
    have hpos' : (readChar l).position = q + k + 1 := by
      rw [show (readChar l).position = l.readPosition from rfl, hrp']
    have hin' : (readChar l).input = input := by
      rw [show (readChar l).input = l.input from rfl, hin]
    have hrp2 : (readChar l).readPosition = (readChar l).position + 1 := rfl
    have hkb : ∀ b, (input.drop (q + 1)).getD k 0 = b → b ≠ 0 →
        k < (input.drop (q + 1)).length := by
      intro b hb hb0
      by_contra hge
      push_neg at hge
      rw [List.getD_eq_default _ _ hge] at hb
      exact hb0 hb.symm
    rw [readStringLoop]
    by_cases h34 : (readChar l).ch = 34
    · -- a quote: terminates iff the backslash run before it is even
      have hklt : k < (input.drop (q + 1)).length :=
        hkb 34 (by rw [← hch, h34]) (by decide)
      have hcount : countBackslashes (readChar l).input ((readChar l).position - 1) =
          trailingBackslashRun ((input.drop (q + 1)).take k) := by
        rw [hin', hpos']
        have : q + k + 1 - 1 = q + k := by omega
        rw [this]
        exact countBackslashes_bridge input q hq k (by omega)
      by_cases heven : trailingBackslashRun ((input.drop (q + 1)).take k) % 2 = 0
      · refine ⟨k, le_refl k, hpre, ?_, ?_⟩
        · have hterm : strTerm (input.drop (q + 1)) k = true := by
            rw [strTerm, decide_eq_true_eq]
            exact ⟨hch.symm.trans h34, heven⟩
          rw [strStop, decide_eq_true_eq]
          exact Or.inl hterm
        · rw [if_pos h34, if_pos (by rw [hcount]; exact heven)]
          have hterm : strTerm (input.drop (q + 1)) k = true := by
            rw [strTerm, decide_eq_true_eq]
            exact ⟨hch.symm.trans h34, heven⟩
          have hslice : slice (readChar l).input (q + 1) (readChar l).position =
              (input.drop (q + 1)).take k := by
            rw [hin', hpos', slice]
            congr 1
            omega
          rw [hslice, hterm]
          rfl
      · -- an escaped quote: not a stop, continue
        have hgd34 : (input.drop (q + 1)).getD k 0 = 34 := hch.symm.trans h34
        have hstop : strStop (input.drop (q + 1)) k = false := by
          rw [strStop, decide_eq_false_iff_not]
          rintro (ht | hc)
          · rw [strTerm, decide_eq_true_eq] at ht
            exact heven ht.2
          · rw [strCtrl, decide_eq_true_eq] at hc
            rw [hgd34] at hc
            omega
        obtain ⟨j, hkj, hjpre, hjstop, hjres⟩ := ih (k + 1) (readChar l) hin' hpos' hrp2
          (by omega)
          (by
            intro i hi
            by_cases hik : i < k
            · exact hpre i hik
            · have : i = k := by omega
              rw [this]
              exact hstop)
        refine ⟨j, by omega, hjpre, hjstop, ?_⟩
        rw [if_pos h34, if_neg (by rw [hcount]; exact heven)]
        exact hjres
    · by_cases hctrl : (readChar l).ch ≤ 31
      · -- a control byte (or end of input): ILLEGAL with the collected text
        refine ⟨k, le_refl k, hpre, ?_, ?_⟩
        · have hctrl' : strCtrl (input.drop (q + 1)) k = true := by
            rw [strCtrl, decide_eq_true_eq, ← hch]
            exact hctrl
          rw [strStop, decide_eq_true_eq]
          exact Or.inr hctrl'
        · rw [if_neg h34, if_pos hctrl]
          have hterm : strTerm (input.drop (q + 1)) k = false := by
            rw [strTerm, decide_eq_false_iff_not]
            rintro ⟨h34', -⟩
            rw [← hch] at h34'
            exact h34 h34'
          have hslice : slice (readChar l).input (q + 1) (readChar l).position =
              (input.drop (q + 1)).take k := by
            rw [hin', hpos', slice]
            congr 1
            omega
          rw [hslice, hterm]
          rfl
      · -- an ordinary byte: not a stop, continue
        have hb0 : (input.drop (q + 1)).getD k 0 ≠ 0 := by
          rw [← hch]
          omega
        have hklt : k < (input.drop (q + 1)).length := hkb _ rfl hb0
        have hstop : strStop (input.drop (q + 1)) k = false := by
          rw [strStop, decide_eq_false_iff_not]
          rintro (ht | hc)
          · rw [strTerm, decide_eq_true_eq] at ht
            rw [← hch] at ht
            exact h34 ht.1
          · rw [strCtrl, decide_eq_true_eq, ← hch] at hc
            exact hctrl hc
        obtain ⟨j, hkj, hjpre, hjstop, hjres⟩ := ih (k + 1) (readChar l) hin' hpos' hrp2
          (by omega)
          (by
            intro i hi
            by_cases hik : i < k
            · exact hpre i hik
            · have : i = k := by omega
              rw [this]
              exact hstop)
        refine ⟨j, by omega, hjpre, hjstop, ?_⟩
        rw [if_neg h34, if_neg hctrl]
        exact hjres

/-- C5: during string scanning after an opening quote, the lexer stops at the
first index j of the remaining input that carries a stop byte: an unescaped
quote (a quote whose run of immediately preceding backslashes is even,
including zero) yields a STRING token, and any byte 0-31 reached first --
including the 0 byte signalling end of input, i.e. an unterminated string --
yields an ILLEGAL token; in both cases the literal is exactly the text
collected so far (the first j bytes after the opening quote), so a truncated
STRING is never produced. -/
theorem readString_scan_spec (l : Lexer)
    (hq : l.input.getD l.position 0 = 34)
    (hrp : l.readPosition = l.position + 1) :
    ∃ j, (∀ i, i < j → strStop (l.input.drop (l.position + 1)) i = false) ∧
      strStop (l.input.drop (l.position + 1)) j = true ∧
      (readString l).1 =
        ⟨if strTerm (l.input.drop (l.position + 1)) j then STRING else ILLEGAL,
         (l.input.drop (l.position + 1)).take j, ⟨l.line, l.column⟩⟩ := by
  obtain ⟨j, -, hjpre, hjstop, hjres⟩ :=
    readStringLoop_spec l.input l.position hq ⟨l.line, l.column⟩ (l.input.length + 2) 0 l
      rfl rfl hrp (by rw [List.length_drop]; omega) (fun i hi => absurd hi (Nat.not_lt_zero i))
  exact ⟨j, hjpre, hjstop, hjres⟩

/-- Witness for the string-scanning theorem: on the unterminated input
consisting of a quote and the two bytes `ab`, the hypotheses hold at the
lexer state just after New, and the computed token is ILLEGAL `ab` at
line 1, column 1. -/
theorem readString_scan_spec_witness :
    (∃ j, (∀ i, i < j → strStop ((strToBytes "\"ab").drop 1) i = false) ∧
      strStop ((strToBytes "\"ab").drop 1) j = true ∧
      (readString ⟨strToBytes "\"ab", 0, 1, 34, 1, 1⟩).1 =
        ⟨if strTerm ((strToBytes "\"ab").drop 1) j then STRING else ILLEGAL,
         ((strToBytes "\"ab").drop 1).take j, ⟨1, 1⟩⟩) ∧
    (readString ⟨strToBytes "\"ab", 0, 1, 34, 1, 1⟩).1 = ⟨ILLEGAL, strToBytes "ab", ⟨1, 1⟩⟩ :=
  ⟨readString_scan_spec ⟨strToBytes "\"ab", 0, 1, 34, 1, 1⟩ rfl rfl, rfl⟩

theorem digitsSpan_cons_digit (c : Nat) (t : List Nat) (hc : isDigit c = true) :
    digitsSpan (c :: t) = (c :: (digitsSpan t).1, (digitsSpan t).2) := by
  simp [digitsSpan, List.takeWhile_cons, List.dropWhile_cons, hc]

theorem digitsSpan_cons_nondigit (c : Nat) (t : List Nat) (hc : isDigit c = false) :
    digitsSpan (c :: t) = ([], c :: t) := by
  simp [digitsSpan, List.takeWhile_cons, List.dropWhile_cons, hc]

theorem matchFracPart_not46 (c : Nat) (r : List Nat) (hc : ¬ c = 46) :
    matchFracPart (c :: r) = some (c :: r) := by
  rw [matchFracPart.eq_def]
  split
  · rename_i rest heq
    injection heq with h1 h2
    exact absurd h1 hc
  · rfl

theorem fracSplit_not46 (c : Nat) (r : List Nat) (hc : ¬ c = 46) :
    fracSplit (c :: r) = ([], c :: r) := by
  rw [fracSplit.eq_def]
  split
  · rename_i rest heq
    injection heq with h1 h2
    exact absurd h1 hc
  · rfl

theorem fracSplit_of_matchFracPart (t u : List Nat) (h : matchFracPart t = some u) :
    (fracSplit t).2 = u := by
  rcases t with _ | ⟨c, r⟩
  · rw [show matchFracPart [] = some [] from rfl] at h
    exact Option.some.inj h
  · by_cases hc : c = 46
    · subst hc
      rw [show matchFracPart (46 :: r) =
            (if (digitsSpan r).1.isEmpty then none else some (digitsSpan r).2) from rfl] at h
      by_cases hds : (digitsSpan r).1.isEmpty = true
      · rw [if_pos hds] at h
        exact Option.noConfusion h
      · rw [if_neg hds] at h
        exact Option.some.inj h
    · rw [matchFracPart_not46 c r hc] at h
      rw [fracSplit_not46 c r hc]
      exact Option.some.inj h

theorem matchExpPart_spec (t u : List Nat) (h : matchExpPart t = some u)
    (hu : u.isEmpty = true) : ∃ esgn eds, expSplit t = some (esgn, eds) := by
  rcases t with _ | ⟨c, r⟩
  · exact ⟨false, [], rfl⟩
  · simp only [matchExpPart] at h
    by_cases he : c = 101 ∨ c = 69
    · rw [if_pos he] at h
      by_cases hds : (digitsSpan (signSplit r).2).1.isEmpty = true
      · rw [if_pos hds] at h
        exact Option.noConfusion h
      · rw [if_neg hds] at h
        have h2 := Option.some.inj h
        refine ⟨(signSplit r).1, (digitsSpan (signSplit r).2).1, ?_⟩
        have hcond : ¬((digitsSpan (signSplit r).2).1.isEmpty = true ∨
            ¬((digitsSpan (signSplit r).2).2.isEmpty = true)) := by
          rintro (ha | hb)
          · exact hds ha
          · rw [h2] at hb
            exact hb hu
        simp only [expSplit]
        rw [if_pos he, if_neg hcond]
    · rw [if_neg he] at h
      have h2 := Option.some.inj h
      rw [← h2] at hu
      exact Bool.noConfusion hu

theorem intPart_spec (t s2 s3 s4 : List Nat)
    (hI : matchIntPart t = some s2) (hF : matchFracPart s2 = some s3)
    (hE : matchExpPart s3 = some s4) (h4 : s4.isEmpty = true) :
    (digitsSpan t).1.isEmpty = false ∧ (digitsSpan t).2 = s2 := by
  rcases t with _ | ⟨d, u⟩
  · simp only [matchIntPart] at hI
    exact Option.noConfusion hI
  · simp only [matchIntPart] at hI
    by_cases h48 : d = 48
    · rw [if_pos h48] at hI
      have hI2 := Option.some.inj hI
      subst hI2
      subst h48
      rcases u with _ | ⟨e, v⟩
      · exact ⟨rfl, rfl⟩
      · by_cases he : isDigit e = true
        · exfalso
          rw [isDigit, decide_eq_true_eq] at he
          have he46 : ¬ e = 46 := by omega
          rw [matchFracPart_not46 e v he46] at hF
          have hF2 := Option.some.inj hF
          subst hF2
          have hee : ¬ (e = 101 ∨ e = 69) := by omega
          simp only [matchExpPart] at hE
          rw [if_neg hee] at hE
          have hE2 := Option.some.inj hE
          rw [← hE2] at h4
          exact Bool.noConfusion h4
        · have he' : isDigit e = false := Bool.eq_false_iff.mpr he
          constructor
          · rw [digitsSpan_cons_digit 48 (e :: v) (by decide),
              digitsSpan_cons_nondigit e v he']
            rfl
          · rw [digitsSpan_cons_digit 48 (e :: v) (by decide),
              digitsSpan_cons_nondigit e v he']
    · by_cases h19 : 49 ≤ d ∧ d ≤ 57
      · rw [if_neg h48, if_pos h19] at hI
        have hI2 := Option.some.inj hI
        have hd : isDigit d = true := by
          rw [isDigit, decide_eq_true_eq]
          omega
        constructor
        · rw [digitsSpan_cons_digit d u hd]
          rfl
        · rw [digitsSpan_cons_digit d u hd]
          exact hI2
      · rw [if_neg h48, if_neg h19] at hI
        exact Option.noConfusion hI

theorem numberGrammar_unpack (s : List Nat) (h : numberGrammar s = true) :
    ∃ s2 s3 s4, matchIntPart (minusStrip s) = some s2 ∧ matchFracPart s2 = some s3 ∧
      matchExpPart s3 = some s4 ∧ s4.isEmpty = true := by
  rw [numberGrammar] at h
  rcases hI : matchIntPart (minusStrip s) with _ | s2
  · rw [hI] at h
    exact Bool.noConfusion h
  · rw [hI] at h
    replace h : (match matchFracPart s2 with
      | none => false
      | some s3 =>
        match matchExpPart s3 with
        | none => false
        | some s4 => s4.isEmpty) = true := h
    rcases hF : matchFracPart s2 with _ | s3
    · rw [hF] at h
      exact Bool.noConfusion h
    · rw [hF] at h
      replace h : (match matchExpPart s3 with
        | none => false
        | some s4 => s4.isEmpty) = true := h
      rcases hE : matchExpPart s3 with _ | s4
      · rw [hE] at h
        exact Bool.noConfusion h
      · rw [hE] at h
        exact ⟨s2, s3, s4, rfl, hF, hE, h⟩

theorem signSplit_of_grammar (s : List Nat)
    (h2 : ∃ s2, matchIntPart (minusStrip s) = some s2) :
    (signSplit s).2 = minusStrip s := by
  rcases s with _ | ⟨c, t⟩
  · rfl
  · by_cases h45 : c = 45
    · subst h45
      rfl
    · by_cases h43 : c = 43
      · subst h43
        obtain ⟨s2, hI⟩ := h2
        rw [show minusStrip (43 :: t) = 43 :: t from rfl,
          show matchIntPart (43 :: t) = none from rfl] at hI
        exact Option.noConfusion hI
      · have h1 : signSplit (c :: t) = (false, c :: t) := by
          rw [signSplit.eq_def]
          split
          · rename_i q heq
            injection heq with e1 e2
            exact absurd e1 h45
          · rename_i q heq
            injection heq with e1 e2
            exact absurd e1 h43
          · rfl
        have hm : minusStrip (c :: t) = c :: t := by
          rw [minusStrip.eq_def]
          split
          · rename_i q heq
            injection heq with e1 e2
            exact absurd e1 h45
          · rfl
        rw [h1, hm]

theorem goFloatSyntax_of_grammar (s : List Nat) (h : numberGrammar s = true) :
    ∃ esgn eds,
      goFloatSyntax s = some ((signSplit s).1, (digitsSpan (signSplit s).2).1,
        (fracSplit (digitsSpan (signSplit s).2).2).1, esgn, eds) := by
  obtain ⟨s2, s3, s4, hI, hF, hE, h4⟩ := numberGrammar_unpack s h
  have hsg : (signSplit s).2 = minusStrip s := signSplit_of_grammar s ⟨s2, hI⟩
  obtain ⟨hip, hspan⟩ := intPart_spec (minusStrip s) s2 s3 s4 hI hF hE h4
  have hfrac : (fracSplit s2).2 = s3 := fracSplit_of_matchFracPart s2 s3 hF
  obtain ⟨esgn, eds, hexp⟩ := matchExpPart_spec s3 s4 hE h4
  refine ⟨esgn, eds, ?_⟩
  simp only [goFloatSyntax, hsg, hspan, hfrac, hexp]
  have hcond : ¬((digitsSpan (minusStrip s)).1.isEmpty = true ∧
      (fracSplit s2).1.isEmpty = true) := by
    rintro ⟨ha, -⟩
    rw [hip] at ha
    exact Bool.noConfusion ha
  rw [if_neg hcond]

/-- C3 counterexample: the literal 1e400 passes the tokenizer's number
grammar, so `[1e400]` lexes its second token as NUMBER `1e400` at line 1,
column 2 -- yet parsing the document fails with parseNumber's float error at
that position: the error branch is reachable, because the modelled
strconv.ParseFloat reports a range error on a value beyond float64. -/
theorem parseNumber_overflow_cex :
    numberGrammar (strToBytes "1e400") = true ∧
    nthToken (lexerNew (strToBytes "[1e400]")) 1 =
      ⟨NUMBER, strToBytes "1e400", ⟨1, 2⟩⟩ ∧
    parseInput "[1e400]" =
      .error ⟨"Failed parsing \"1e400\" as a float\n", ⟨1, 2⟩⟩ :=
  ⟨rfl, rfl, rfl⟩

/-- C3 amended: for a current token whose literal passes the tokenizer's
number grammar, the modelled ParseFloat's syntax reader always accepts the
literal, parseNumber returns the Number node carrying the parsed value
whenever ParseFloat yields one, and the error branch fires exactly when
ParseFloat fails -- which, the syntax being valid, happens only through the
float64 range checks (overflow or underflow of the decimal magnitude). -/
theorem parseNumber_grammar_range (p : Parser)
    (h : numberGrammar p.curToken.literal = true) :
    ∃ neg ip fp esgn eds,
      goFloatSyntax p.curToken.literal = some (neg, ip, fp, esgn, eds) ∧
      (∀ v, goParseFloat p.curToken.literal = some v →
        parseNumber p = .ok (Element.number p.curToken v, p)) ∧
      (goParseFloat p.curToken.literal = none →
        (decimalOverflow (digitsToNat (ip ++ fp))
            ((if esgn then -(digitsToNat eds : ℤ) else (digitsToNat eds : ℤ)) - fp.length) =
              true ∨
         decimalUnderflow (digitsToNat (ip ++ fp))
            ((if esgn then -(digitsToNat eds : ℤ) else (digitsToNat eds : ℤ)) - fp.length) =
              true) ∧
        parseNumber p = .error ⟨"Failed parsing \"" ++ bytesToString p.curToken.literal ++
          "\" as a float\n", p.curToken.pos⟩) := by
  obtain ⟨esgn, eds, hsyn⟩ := goFloatSyntax_of_grammar p.curToken.literal h
  refine ⟨(signSplit p.curToken.literal).1, (digitsSpan (signSplit p.curToken.literal).2).1,
    (fracSplit (digitsSpan (signSplit p.curToken.literal).2).2).1, esgn, eds, hsyn, ?_, ?_⟩
  · intro v hv
    rw [parseNumber, hv]
  · intro hnone
    constructor
    · by_cases hov : decimalOverflow
          (digitsToNat ((digitsSpan (signSplit p.curToken.literal).2).1 ++
            (fracSplit (digitsSpan (signSplit p.curToken.literal).2).2).1))
          ((if esgn then -(digitsToNat eds : ℤ) else (digitsToNat eds : ℤ)) -
            (fracSplit (digitsSpan (signSplit p.curToken.literal).2).2).1.length) = true
      · exact Or.inl hov
      · by_cases hun : decimalUnderflow
            (digitsToNat ((digitsSpan (signSplit p.curToken.literal).2).1 ++
              (fracSplit (digitsSpan (signSplit p.curToken.literal).2).2).1))
            ((if esgn then -(digitsToNat eds : ℤ) else (digitsToNat eds : ℤ)) -
              (fracSplit (digitsSpan (signSplit p.curToken.literal).2).2).1.length) = true
        · exact Or.inr hun
        · exfalso
          simp only [goParseFloat, hsyn] at hnone
          rw [if_neg hov, if_neg hun] at hnone
          exact Option.noConfusion hnone
    · rw [parseNumber, hnone]

/-- Witness for the amended number theorem at the literal 1e5: the grammar
holds, and all conclusions follow at a concrete parser state whose current
token is NUMBER 1e5. -/
theorem parseNumber_grammar_range_witness :
    ∃ neg ip fp esgn eds,
      goFloatSyntax (strToBytes "1e5") = some (neg, ip, fp, esgn, eds) ∧
      (∀ v, goParseFloat (strToBytes "1e5") = some v →
        parseNumber ⟨lexerNew (strToBytes "1e5"), ⟨ILLEGAL, [], ⟨0, 0⟩⟩,
            ⟨NUMBER, strToBytes "1e5", ⟨1, 1⟩⟩, ⟨EOF, [], ⟨1, 4⟩⟩⟩ =
          .ok (Element.number ⟨NUMBER, strToBytes "1e5", ⟨1, 1⟩⟩ v,
            ⟨lexerNew (strToBytes "1e5"), ⟨ILLEGAL, [], ⟨0, 0⟩⟩,
              ⟨NUMBER, strToBytes "1e5", ⟨1, 1⟩⟩, ⟨EOF, [], ⟨1, 4⟩⟩⟩)) ∧
      (goParseFloat (strToBytes "1e5") = none →
        (decimalOverflow (digitsToNat (ip ++ fp))
            ((if esgn then -(digitsToNat eds : ℤ) else (digitsToNat eds : ℤ)) - fp.length) =
              true ∨
         decimalUnderflow (digitsToNat (ip ++ fp))
            ((if esgn then -(digitsToNat eds : ℤ) else (digitsToNat eds : ℤ)) - fp.length) =
              true) ∧
        parseNumber ⟨lexerNew (strToBytes "1e5"), ⟨ILLEGAL, [], ⟨0, 0⟩⟩,
            ⟨NUMBER, strToBytes "1e5", ⟨1, 1⟩⟩, ⟨EOF, [], ⟨1, 4⟩⟩⟩ =
          .error ⟨"Failed parsing \"" ++ bytesToString (strToBytes "1e5") ++
            "\" as a float\n", ⟨1, 1⟩⟩) :=
  parseNumber_grammar_range ⟨lexerNew (strToBytes "1e5"), ⟨ILLEGAL, [], ⟨0, 0⟩⟩,
    ⟨NUMBER, strToBytes "1e5", ⟨1, 1⟩⟩, ⟨EOF, [], ⟨1, 4⟩⟩⟩ rfl

end GoJson
